import Mathlib

/-!
# Verification of the capitan event bus

A shallow embedding of the `capitan` in-process publish/subscribe event bus
(package `capitan`, Go).  Pure data (signals, severities, keys, fields,
events) is embedded directly; the concurrent dispatch engine (registry,
per-signal workers, observers, shutdown) is embedded as a sequential
small-step semantics over an explicit bus state: each Go critical section
(every API call runs under the bus lock, each worker dequeue-and-process is
one loop iteration) becomes one atomic step, and listener invocations are
recorded in an observable trace.
-/

namespace Capitan

/-- `type Signal string` — an opaque event-type identifier. -/
abbrev Signal := String

/-- `type Severity string` — the logging severity of an event. -/
abbrev Severity := String

/-- `SeverityDebug Severity = "DEBUG"` -/
def SeverityDebug : Severity := "DEBUG"

/-- `SeverityInfo Severity = "INFO"` -/
def SeverityInfo : Severity := "INFO"

/-- `SeverityWarn Severity = "WARN"` -/
def SeverityWarn : Severity := "WARN"

/-- `SeverityError Severity = "ERROR"` -/
def SeverityError : Severity := "ERROR"

/-- `type Variant string` — the discriminator for a field's concrete type. -/
abbrev Variant := String

/-- `VariantString Variant = "string"` -/
def VariantString : Variant := "string"

/-- `VariantInt Variant = "int"` -/
def VariantInt : Variant := "int"

/-- `VariantBool Variant = "bool"` -/
def VariantBool : Variant := "bool"

/-- The runtime payload of a Go `GenericField[T]`.  The constructor records
the generic type parameter `T`, so a Go type assertion
`f.(GenericField[string])` succeeds exactly when the payload was built with
`str`.  Only the variants the claims exercise (string, int, bool) are
embedded; the remaining primitive variants are structurally identical. -/
inductive FieldVal where
  | str (s : String)
  | int (n : Int)
  | bool (b : Bool)
deriving DecidableEq, Repr

/-- The `Key` interface value stored inside a field: a name and a variant
(`Name()` and `Variant()`). -/
structure KeyRepr where
  name : String
  variant : Variant
deriving DecidableEq, Repr

/-- `GenericField[T]{key, value, variant}` — a typed value with semantic
meaning in an event.  `val` carries both the value and the generic type
parameter (see `FieldVal`). -/
structure Field where
  key : KeyRepr
  val : FieldVal
  variant : Variant
deriving DecidableEq, Repr

/-- The Go map `map[string]Field` of an event, embedded as an association
list holding at most one entry per key. -/
abbrev FieldMap := List (String × Field)

/-- Go map deletion `delete(m, k)`: removes the entry for `k`, if any. -/
def FieldMap.delete : FieldMap → String → FieldMap
  | [], _ => []
  | p :: rest, k =>
      if p.1 = k then FieldMap.delete rest k else p :: FieldMap.delete rest k

/-- Go map assignment `m[k] = f`: replaces any existing entry for `k`. -/
def FieldMap.insert (m : FieldMap) (k : String) (f : Field) : FieldMap :=
  FieldMap.delete m k ++ [(k, f)]

/-- Go map indexing `m[k]`: the entry for `k`, or `nil` (here `none`). -/
def FieldMap.lookup : FieldMap → String → Option Field
  | [], _ => none
  | p :: rest, k => if p.1 = k then some p.2 else FieldMap.lookup rest k

/-- An `Event` (fields.go): one emission instance.  The Go struct carries
`signal`, `timestamp`, `ctx`, `fields`, `severity`.  Wall-clock `timestamp`
is not modelled.  The context is modelled by the one bit the dispatch engine
reads from it — whether `ctx.Err() != nil` (cancellation is monotone, so an
already-canceled context stays canceled).  `id` is a ghost identifier naming
the emission instance, so that the observable trace can refer to it; it
stands for the identity of the `Emit` call, not for the pooled struct
pointer (which is reused). -/
structure Event where
  id : Nat
  signal : Signal
  ctxCanceled : Bool
  severity : Severity
  fields : FieldMap
deriving DecidableEq, Repr

/-- The clearing loop of `newEvent`:
`for k := range e.fields { delete(e.fields, k) }`. -/
def clearFields (m : FieldMap) : FieldMap :=
  (m.map Prod.fst).foldl FieldMap.delete m

/-- `newEvent(ctx, signal, severity, fields...)` (fields.go): takes an event
from the pool (its stale field map is `stale`), overwrites signal, timestamp,
context and severity, clears every stale field, then copies the new fields
in, keyed by `field.Key().Name()` — a later field with the same name
overwrites an earlier one.  `id` is the ghost emission identifier. -/
def newEvent (stale : FieldMap) (id : Nat) (ctxCanceled : Bool) (signal : Signal)
    (severity : Severity) (fields : List Field) : Event :=
  { id := id, signal := signal, ctxCanceled := ctxCanceled, severity := severity,
    fields := fields.foldl (fun m f => FieldMap.insert m f.key.name f) (clearFields stale) }

/-- `Event.Get(key)`: the field stored under `key.Name()`, or `nil`. -/
def Event.get (e : Event) (keyName : String) : Option Field :=
  FieldMap.lookup e.fields keyName

/-- `StringKey{name}` — a key for string values. -/
structure StringKey where
  name : String
deriving DecidableEq, Repr

/-- `StringKey.Field(value)`: a `GenericField[string]` carrying this key. -/
def StringKey.Field (k : StringKey) (value : String) : Capitan.Field :=
  { key := ⟨k.name, VariantString⟩, val := .str value, variant := VariantString }

/-- `StringKey.From(e)`: `e.Get(k)` followed by a type assertion to
`GenericField[string]`; a missing field or a wrong dynamic type both yield
`("", false)`. -/
def StringKey.From (k : StringKey) (e : Event) : String × Bool :=
  match e.get k.name with
  | none => ("", false)
  | some f =>
    match f.val with
    | .str s => (s, true)
    | _ => ("", false)

/-- `IntKey{name}` — a key for int values. -/
structure IntKey where
  name : String
deriving DecidableEq, Repr

/-- `IntKey.Field(value)`: a `GenericField[int]` carrying this key. -/
def IntKey.Field (k : IntKey) (value : Int) : Capitan.Field :=
  { key := ⟨k.name, VariantInt⟩, val := .int value, variant := VariantInt }

/-- `IntKey.From(e)`: `e.Get(k)` followed by a type assertion to
`GenericField[int]`; a missing field or a wrong dynamic type both yield
`(0, false)`. -/
def IntKey.From (k : IntKey) (e : Event) : Int × Bool :=
  match e.get k.name with
  | none => (0, false)
  | some f =>
    match f.val with
    | .int n => (n, true)
    | _ => (0, false)

/-- Spec-side reading of the field bag contract (C8): the event's map should
hold, for each name, exactly the LAST field of the argument list carrying
that name — and nothing else. -/
def lastFieldNamed : List Field → String → Option Field
  | [], _ => none
  | f :: fs, n =>
    match lastFieldNamed fs n with
    | some g => some g
    | none => if f.key.name = n then some f else none

/-! ### Field-map lemmas -/

theorem FieldMap.lookup_delete (m : FieldMap) (k n : String) :
    FieldMap.lookup (FieldMap.delete m k) n =
      if n = k then none else FieldMap.lookup m n := by
  induction m with
  | nil => simp [FieldMap.delete, FieldMap.lookup]
  | cons p rest ih =>
    by_cases hpk : p.1 = k
    · by_cases hnk : n = k
      · simp only [FieldMap.delete, if_pos hpk, ih, if_pos hnk]
      · have hkn : ¬ k = n := fun h => hnk h.symm
        have hpn : ¬ p.1 = n := hpk ▸ hkn
        simp only [FieldMap.delete, FieldMap.lookup, if_pos hpk, if_neg hpn, ih, if_neg hnk]
    · by_cases hpn : p.1 = n
      · have hnk : ¬ n = k := fun h => hpk (hpn.symm ▸ h)
        simp only [FieldMap.delete, FieldMap.lookup, if_neg hpk, if_pos hpn, if_neg hnk]
      · simp only [FieldMap.delete, FieldMap.lookup, if_neg hpk, if_neg hpn, ih]

theorem FieldMap.lookup_append (a b : FieldMap) (n : String) :
    FieldMap.lookup (a ++ b) n =
      match FieldMap.lookup a n with
      | some f => some f
      | none => FieldMap.lookup b n := by
  induction a with
  | nil => simp [FieldMap.lookup]
  | cons p rest ih =>
    by_cases hpn : p.1 = n
    · simp [FieldMap.lookup, hpn]
    · simp [FieldMap.lookup, hpn, ih]

theorem FieldMap.lookup_insert (m : FieldMap) (k : String) (f : Field) (n : String) :
    FieldMap.lookup (FieldMap.insert m k f) n =
      if n = k then some f else FieldMap.lookup m n := by
  unfold FieldMap.insert
  rw [FieldMap.lookup_append, FieldMap.lookup_delete]
  by_cases hnk : n = k
  · simp [FieldMap.lookup, hnk]
  · have hkn : ¬ k = n := fun h => hnk h.symm
    simp only [if_neg hnk, FieldMap.lookup, if_neg hkn]
    cases FieldMap.lookup m n <;> rfl

theorem FieldMap.mem_delete {m : FieldMap} {k : String} {p : String × Field}
    (hp : p ∈ FieldMap.delete m k) : p ∈ m ∧ p.1 ≠ k := by
  induction m with
  | nil => simp [FieldMap.delete] at hp
  | cons q rest ih =>
    by_cases hq : q.1 = k
    · rw [FieldMap.delete, if_pos hq] at hp
      exact ⟨List.mem_cons_of_mem _ (ih hp).1, (ih hp).2⟩
    · rw [FieldMap.delete, if_neg hq] at hp
      rcases List.mem_cons.mp hp with h | h
      · exact ⟨h ▸ List.mem_cons_self _ _, h ▸ hq⟩
      · exact ⟨List.mem_cons_of_mem _ (ih h).1, (ih h).2⟩

theorem foldl_delete_of_keys_subset (ks : List String) :
    ∀ m : FieldMap, (∀ p ∈ m, p.1 ∈ ks) → ks.foldl FieldMap.delete m = [] := by
  induction ks with
  | nil =>
    intro m hm
    cases m with
    | nil => rfl
    | cons p rest => exact absurd (hm p (by simp)) (by simp)
  | cons k ks ih =>
    intro m hm
    simp only [List.foldl_cons]
    apply ih
    intro p hp
    rcases FieldMap.mem_delete hp with ⟨hmem, hpk⟩
    rcases List.mem_cons.mp (hm p hmem) with h | h
    · exact absurd h hpk
    · exact h

theorem clearFields_eq_nil (m : FieldMap) : clearFields m = [] := by
  apply foldl_delete_of_keys_subset
  intro p hp
  exact List.mem_map_of_mem Prod.fst hp

theorem lookup_foldl_insert (fs : List Field) :
    ∀ (m : FieldMap) (n : String),
      FieldMap.lookup (fs.foldl (fun m f => FieldMap.insert m f.key.name f) m) n =
        match lastFieldNamed fs n with
        | some g => some g
        | none => FieldMap.lookup m n := by
  induction fs with
  | nil => intro m n; rfl
  | cons f fs ih =>
    intro m n
    simp only [List.foldl_cons, ih, lastFieldNamed]
    cases lastFieldNamed fs n with
    | some g => rfl
    | none =>
      simp only [FieldMap.lookup_insert]
      by_cases hn : n = f.key.name
      · rw [if_pos hn, if_pos hn.symm]
      · rw [if_neg hn, if_neg (fun h => hn h.symm)]

/-- The field map built by `newEvent` holds, under each name, exactly the
last argument field carrying that name — independently of the pooled map. -/
theorem newEvent_lookup (stale : FieldMap) (id : Nat) (cc : Bool) (sig : Signal)
    (sev : Severity) (fields : List Field) (n : String) :
    FieldMap.lookup (newEvent stale id cc sig sev fields).fields n =
      lastFieldNamed fields n := by
  unfold newEvent
  simp only
  rw [lookup_foldl_insert, clearFields_eq_nil]
  cases lastFieldNamed fields n <;> rfl

/-- C8: every event produced by the pooled constructor `newEvent` contains
exactly the fields passed to that call, keyed by field name, a later field
with the same name overwriting an earlier one; no field from a previous use
of the pooled event object survives — for every name, the constructed
event's field map holds exactly the last argument field with that name,
whatever the stale pooled map was. -/
theorem newEvent_exact_fields (stale : FieldMap) (id : Nat) (cc : Bool)
    (sig : Signal) (sev : Severity) (fields : List Field) (n : String) :
    FieldMap.lookup (newEvent stale id cc sig sev fields).fields n =
      lastFieldNamed fields n :=
  newEvent_lookup stale id cc sig sev fields n

/-- C9: for a typed key K and a value V of its declared type, `K.Field(V)`
placed on an event and read back through `K.From` yields `(V, true)`, while
reading through a key of the other type sharing the same name yields the
zero value and `false` — a type mismatch is reported as not-found, never as
a coerced value.  Stated for both directions (string stored / int probed,
and int stored / string probed). -/
theorem key_roundtrip_and_mismatch (name : String) (v : String) (w : Int)
    (stale stale2 : FieldMap) (id id2 : Nat) (cc cc2 : Bool) (sig sig2 : Signal)
    (sev sev2 : Severity) :
    (StringKey.From ⟨name⟩ (newEvent stale id cc sig sev [StringKey.Field ⟨name⟩ v]) = (v, true)
      ∧ IntKey.From ⟨name⟩ (newEvent stale id cc sig sev [StringKey.Field ⟨name⟩ v]) = (0, false))
    ∧ (IntKey.From ⟨name⟩ (newEvent stale2 id2 cc2 sig2 sev2 [IntKey.Field ⟨name⟩ w]) = (w, true)
      ∧ StringKey.From ⟨name⟩ (newEvent stale2 id2 cc2 sig2 sev2 [IntKey.Field ⟨name⟩ w]) = ("", false)) := by
  have h1 : Event.get (newEvent stale id cc sig sev [StringKey.Field ⟨name⟩ v]) name =
      some (StringKey.Field ⟨name⟩ v) := by
    unfold Event.get
    rw [newEvent_lookup]
    simp [lastFieldNamed, StringKey.Field]
  have h2 : Event.get (newEvent stale2 id2 cc2 sig2 sev2 [IntKey.Field ⟨name⟩ w]) name =
      some (IntKey.Field ⟨name⟩ w) := by
    unfold Event.get
    rw [newEvent_lookup]
    simp [lastFieldNamed, IntKey.Field]
  refine ⟨⟨?_, ?_⟩, ?_, ?_⟩
  · unfold StringKey.From
    rw [h1]
    rfl
  · unfold IntKey.From
    rw [h1]
    rfl
  · unfold IntKey.From
    rw [h2]
    rfl
  · unfold StringKey.From
    rw [h2]
    rfl

/-! ### The dispatch engine state

The concurrent core is embedded as a sequential small-step semantics.  Every
Go critical section — an API call holding the bus lock, or one iteration of
a worker goroutine's loop — is one atomic step on an explicit `Capitan`
state.  Go pointers become ghost numeric identities drawn from a single
allocator (`nextId`); Go's `sync.Pool` of events becomes a list of the
pooled events' stale field maps. -/

/-- A `Listener` (listener.go): one callback bound to one signal.  `id` is
the ghost identity standing for the Go pointer (used by the `l == listener`
comparison in `unregister`); `cb` identifies the callback function value;
`owner` is `some oid` when the listener was spawned on behalf of observer
`oid` (mirroring its membership in that observer's `listeners` slice —
`Hook` creates listeners with `owner = none`). -/
structure Listener where
  id : Nat
  signal : Signal
  cb : Nat
  owner : Option Nat
deriving DecidableEq, Repr

/-- An `Observer` (observer.go): a callback dynamically bound to some or all
signals.  `signals = none` observes everything; `signals = some wl` is the
whitelist (the Go `map[Signal]struct{}`).  `listeners` tracks the listeners
it has spawned so `Close` can tear them down. -/
structure Observer where
  id : Nat
  listeners : List Listener
  cb : Nat
  active : Bool
  signals : Option (List Signal)
deriving DecidableEq, Repr

/-- `workerState` (part of the dispatch engine): the bounded event queue (a
buffered channel — FIFO, head is the next event to be received) and the
per-worker done signal. -/
structure WorkerState where
  events : List Event
  doneClosed : Bool
deriving DecidableEq, Repr

/-- Association-list lookup for the Go maps keyed by `Signal`. -/
def SMap.find {β : Type} : List (Signal × β) → Signal → Option β
  | [], _ => none
  | p :: rest, k => if p.1 = k then some p.2 else SMap.find rest k

/-- Go map assignment `m[k] = v`: replace the entry or append a new one. -/
def SMap.set {β : Type} : List (Signal × β) → Signal → β → List (Signal × β)
  | [], k, v => [(k, v)]
  | p :: rest, k, v => if p.1 = k then (k, v) :: rest else p :: SMap.set rest k v

/-- Go map deletion `delete(m, k)`. -/
def SMap.erase {β : Type} : List (Signal × β) → Signal → List (Signal × β)
  | [], _ => []
  | p :: rest, k => if p.1 = k then SMap.erase rest k else p :: SMap.erase rest k

/-- `c.registry[sig]` as Go reads it: a missing entry is the empty slice. -/
def regGet (m : List (Signal × List Listener)) (sig : Signal) : List Listener :=
  (SMap.find m sig).getD []

/-- The bus instance (service.go `Capitan` struct).  `obsHeap` is the ghost
heap of every `Observer` object ever created (Go objects outlive their
membership in `c.observers`, and `Observer.Close` must still read them);
`observers` is the bus's attached-observer slice, holding heap ids in slice
order.  `exiting` holds workers whose done signal was closed by `unregister`
— already removed from the table but still draining (their goroutine has not
yet called `wg.Done`).  `created` is the ghost heap of every `Listener`
object ever created.  `bufferSize` and `panicHandlerSet` are the
configuration (`WithBufferSize`, `WithPanicHandler`). -/
structure Capitan where
  registry : List (Signal × List Listener)
  workers : List (Signal × WorkerState)
  obsHeap : List Observer
  observers : List Nat
  shutdownClosed : Bool
  exiting : List (Signal × WorkerState)
  pool : List FieldMap
  created : List Listener
  nextId : Nat
  bufferSize : Nat
  panicHandlerSet : Bool
deriving DecidableEq, Repr

/-- `New(opts...)`: empty registry, worker table and observer list, an open
shutdown channel, and the configuration produced by the options. -/
def Capitan.new (bufferSize : Nat) (panicHandlerSet : Bool) : Capitan :=
  { registry := [], workers := [], obsHeap := [], observers := [],
    shutdownClosed := false, exiting := [], pool := [], created := [],
    nextId := 0, bufferSize := bufferSize, panicHandlerSet := panicHandlerSet }

/-- Whitelist filter of `attachObservers`/`Observe`: `signals == nil` matches
everything, otherwise the signal must be in the whitelist set. -/
def obsMatches : Option (List Signal) → Signal → Bool
  | some wl, sig => decide (sig ∈ wl)
  | none, _ => true

/-- Replace the heap entry carrying `o.id` by `o`. -/
def obsUpdate (hs : List Observer) (o : Observer) : List Observer :=
  hs.map (fun q => if q.id = o.id then o else q)

/-- Heap lookup by observer id. -/
def obsFind : List Observer → Nat → Option Observer
  | [], _ => none
  | o :: rest, oid => if o.id = oid then some o else obsFind rest oid

/-- The body of `attachObservers` for one observer: under the observer's
lock, if it is active and the signal passes its whitelist, create a listener
bound to its callback and append it to both the registry entry and the
observer's own listener list. -/
def attachOne (c : Capitan) (sig : Signal) (oid : Nat) : Capitan :=
  match obsFind c.obsHeap oid with
  | none => c
  | some obs =>
    if obs.active ∧ obsMatches obs.signals sig then
      let l : Listener := { id := c.nextId, signal := sig, cb := obs.cb, owner := some oid }
      { c with
        registry := SMap.set c.registry sig (regGet c.registry sig ++ [l]),
        obsHeap := obsUpdate c.obsHeap { obs with listeners := obs.listeners ++ [l] },
        created := c.created ++ [l],
        nextId := c.nextId + 1 }
    else c

/-- `attachObservers(signal)` (service.go): attach every currently-attached
observer, in the order of the bus's observer slice. -/
def Capitan.attachObservers (c : Capitan) (sig : Signal) : Capitan :=
  c.observers.foldl (fun c oid => attachOne c sig oid) c

/-- `Hook(signal, callback)` (service.go): create a listener, append it to
the registry, and — if this was the signal's first registry entry — run
observer attachment for the signal.  Returns the new listener handle. -/
def Capitan.hook (c : Capitan) (sig : Signal) (cb : Nat) : Capitan × Listener :=
  let l : Listener := { id := c.nextId, signal := sig, cb := cb, owner := none }
  let existsBefore := (SMap.find c.registry sig).isSome
  let c1 : Capitan :=
    { c with registry := SMap.set c.registry sig (regGet c.registry sig ++ [l]),
             created := c.created ++ [l],
             nextId := c.nextId + 1 }
  (if existsBefore then c1 else c1.attachObservers sig, l)

/-- The loop body of `Observe`'s scan over existing registry entries: if the
signal passes the observer-under-construction's whitelist, create a listener
for it and append it to the registry entry and to the observer. -/
def observeStep (cb : Nat) (oid : Nat) (acc : Capitan × Observer) (sig : Signal) :
    Capitan × Observer :=
  if obsMatches acc.2.signals sig then
    let l : Listener := { id := acc.1.nextId, signal := sig, cb := cb, owner := some oid }
    ({ acc.1 with
         registry := SMap.set acc.1.registry sig (regGet acc.1.registry sig ++ [l]),
         created := acc.1.created ++ [l],
         nextId := acc.1.nextId + 1 },
     { acc.2 with listeners := acc.2.listeners ++ [l] })
  else acc

/-- `Observe(callback, signals...)` (service.go): build the whitelist (empty
argument list = observe everything), create one listener for every existing
registry entry that passes it, record them on the observer, and append the
observer to the bus's observer slice.  Returns the new observer's id. -/
def Capitan.observe (c : Capitan) (cb : Nat) (sigs : List Signal) : Capitan × Nat :=
  let oid := c.nextId
  let wl : Option (List Signal) := if sigs = [] then none else some sigs
  let keys := c.registry.map Prod.fst
  let init : Capitan × Observer :=
    ({ c with nextId := c.nextId + 1 },
     { id := oid, listeners := [], cb := cb, active := true, signals := wl })
  let res := keys.foldl (observeStep cb oid) init
  ({ res.1 with obsHeap := res.1.obsHeap ++ [res.2], observers := res.1.observers ++ [oid] }, oid)

/-- Swap-with-last-and-truncate removal of the first element matching `p`
(the removal idiom of `unregister` and `Observer.Close`). -/
def swapRemoveP {α : Type} (xs : List α) (p : α → Bool) : List α :=
  match xs.findIdx? p with
  | none => xs
  | some i =>
    match xs.getLast? with
    | none => xs
    | some last => (xs.set i last).dropLast

/-- `unregister(listener)` (service.go): remove the listener (matched by
identity) from its signal's registry entry by swap-with-last-and-truncate;
if the entry is now empty, delete it, and if a worker exists for the signal
close its done signal and remove it from the worker table (the goroutine
keeps draining — modelled by moving it to `exiting`). -/
def Capitan.unregister (c : Capitan) (l : Listener) : Capitan :=
  let ls := regGet c.registry l.signal
  let c1 : Capitan :=
    if (ls.findIdx? (fun x => decide (x.id = l.id))).isSome then
      { c with registry := SMap.set c.registry l.signal
                 (swapRemoveP ls (fun x => decide (x.id = l.id))) }
    else c
  if (regGet c1.registry l.signal).length = 0 then
    let c2 : Capitan := { c1 with registry := SMap.erase c1.registry l.signal }
    match SMap.find c2.workers l.signal with
    | some w =>
      { c2 with workers := SMap.erase c2.workers l.signal,
                exiting := c2.exiting ++ [(l.signal, { w with doneClosed := true })] }
    | none => c2
  else c1

/-- `Listener.Close()`: resolve the handle (ghost heap stands for the Go
pointer the caller holds) and unregister it.  An id never produced by the
bus resolves to nothing and is a no-op. -/
def Capitan.closeListener (c : Capitan) (lid : Nat) : Capitan :=
  match c.created.find? (fun l => decide (l.id = lid)) with
  | some l => c.unregister l
  | none => c

/-- `Observer.Close()` (observer.go): under the observer's own lock, return
at once if already inactive; otherwise mark inactive and take its listener
list, remove the observer from the bus's observer slice
(swap-with-last-and-truncate), then close every taken listener. -/
def Capitan.closeObserver (c : Capitan) (oid : Nat) : Capitan :=
  match obsFind c.obsHeap oid with
  | none => c
  | some obs =>
    if obs.active then
      let ls := obs.listeners
      let c1 : Capitan :=
        { c with obsHeap := obsUpdate c.obsHeap { obs with active := false, listeners := [] } }
      let c2 : Capitan :=
        { c1 with observers := swapRemoveP c1.observers (fun x => decide (x = oid)) }
      ls.foldl (fun c l => c.unregister l) c2
    else c

/-! ### Emit and the worker loop -/

/-- What one `Emit` call did (the Go function returns nothing; this is the
proof-level observation).  `noListeners`: returned before creating an event
because the signal had no listeners after observer attachment.
`droppedNoWorker`: the worker vanished between the two lookups (raced with
the last listener closing) — event returned to the pool.  `enqueued`: the
event entered the worker's queue.  `droppedOnWait`: a canceled context, the
worker's done signal, or global shutdown ended the enqueue wait — event
returned to the pool.  `blocked`: the queue is full and no drop branch is
ready, so the Go call would suspend on backpressure (no later state of this
sequential semantics is modelled for it). -/
inductive EmitOutcome where
  | noListeners
  | droppedNoWorker
  | enqueued
  | droppedOnWait
  | blocked
deriving DecidableEq, Repr

/-- The slow path of `Emit`: if no worker exists, ensure the signal has a
registry entry (creating an empty one and running observer attachment on
first-ever use), and either return `false` (still no listeners — drop) or
create the worker (empty queue, open done signal) and return `true`. -/
def Capitan.ensureWorker (c : Capitan) (sig : Signal) : Capitan × Bool :=
  if (SMap.find c.workers sig).isSome then (c, true)
  else
    if (regGet c.registry sig).length = 0 then
      let ca : Capitan :=
        if (SMap.find c.registry sig).isSome then c
        else Capitan.attachObservers { c with registry := SMap.set c.registry sig [] } sig
      if (regGet ca.registry sig).length = 0 then (ca, false)
      else ({ ca with workers := SMap.set ca.workers sig { events := [], doneClosed := false } }, true)
    else ({ c with workers := SMap.set c.workers sig { events := [], doneClosed := false } }, true)

/-- `eventPool.Get()`: reuse a pooled event's stale field map, or start from
a fresh empty one. -/
def poolGet (c : Capitan) : FieldMap × Capitan :=
  match c.pool with
  | [] => ([], c)
  | m :: rest => (m, { c with pool := rest })

/-- `eventPool.Put(event)`: the event's field map returns to the pool. -/
def poolPut (c : Capitan) (e : Event) : Capitan :=
  { c with pool := c.pool ++ [e.fields] }

/-- `Emit(ctx, signal, fields...)` (the dispatch engine): fast-path worker
lookup, slow-path worker creation via `Capitan.ensureWorker` (returning
early if the signal still has no listeners), pooled event construction,
re-read of the worker reference, then the four-way select on
`worker.events <- event` / `ctx.Done()` / `worker.done` / `c.shutdown`.
When the queue has space AND a drop branch is also ready, Go's select picks
either; the scheduler's choice is the `pickDrop` argument, so theorems
quantifying over `pickDrop` cover every admissible select behaviour. -/
def Capitan.emit (c : Capitan) (sig : Signal) (ctxCanceled : Bool) (sev : Severity)
    (fields : List Field) (pickDrop : Bool) : Capitan × EmitOutcome :=
  let r := c.ensureWorker sig
  if r.2 = false then (r.1, .noListeners)
  else
    let pg := poolGet r.1
    let ev : Event := newEvent pg.1 pg.2.nextId ctxCanceled sig sev fields
    let c2 : Capitan := { pg.2 with nextId := pg.2.nextId + 1 }
    match SMap.find c2.workers sig with
    | none => (poolPut c2 ev, .droppedNoWorker)
    | some w =>
      let dropReady := ctxCanceled ∨ w.doneClosed ∨ c2.shutdownClosed
      if w.events.length < c2.bufferSize ∧ ¬(pickDrop ∧ dropReady) then
        ({ c2 with workers := SMap.set c2.workers sig { w with events := w.events ++ [ev] } },
         .enqueued)
      else if dropReady then (poolPut c2 ev, .droppedOnWait)
      else (c2, .blocked)

/-- The behaviour of the listener callbacks, external to the bus: for each
callback identity, `some r` when invoking it panics with recovered value
`r`, `none` when it returns normally. -/
abbrev PanicEnv := Nat → Option Nat

/-- One observable action of the dispatch engine: a listener's callback was
invoked with an event, or the configured panic handler was called with a
signal and a recovered value. -/
inductive TraceItem where
  | invoke (l : Listener) (sig : Signal) (eid : Nat)
  | handler (sig : Signal) (recovered : Nat)
deriving DecidableEq, Repr

/-- The observable history of a run. -/
abbrev Trace := List TraceItem

/-- One panic-isolated listener invocation of the fan-out loop: the callback
runs inside `func() { defer recover-wrapper; listener.callback(...) }()`; if
it panics and a panic handler is configured the handler receives the signal
and the recovered value, otherwise the panic is discarded.  Either way the
loop continues with the next listener. -/
def invokeListener (env : PanicEnv) (phSet : Bool) (sig : Signal) (eid : Nat)
    (l : Listener) : Trace :=
  TraceItem.invoke l sig eid ::
    (match env l.cb with
     | some r => if phSet then [TraceItem.handler sig r] else []
     | none => [])

/-- `processEvent(signal, event)` (the dispatch engine): skip (and pool) an
event whose context is already canceled; otherwise snapshot the signal's
listener slice under the read lock, invoke each listener under panic
recovery, and return the event to the pool. -/
def Capitan.processEvent (env : PanicEnv) (c : Capitan) (sig : Signal) (e : Event) :
    Capitan × Trace :=
  if e.ctxCanceled then (poolPut c e, [])
  else
    (poolPut c e,
     (regGet c.registry sig).flatMap (invokeListener env c.panicHandlerSet sig e.id))

/-- `drainEvents(signal, events)`: pull every event still in the queue, in
channel (FIFO) order, and process each one; stop when the queue is empty. -/
def Capitan.drainEvents (env : PanicEnv) (c : Capitan) (sig : Signal) :
    List Event → Capitan × Trace
  | [] => (c, [])
  | e :: rest =>
    let r := c.processEvent env sig e
    let r2 := Capitan.drainEvents env r.1 sig rest
    (r2.1, r.2 ++ r2.2)

/-- One iteration of the `processEvents` loop taking the
`case event := <-state.events` branch: dequeue the head event and process
it.  A missing worker or an empty queue means the goroutine is blocked in
the select — no step. -/
def Capitan.workerDeq (env : PanicEnv) (c : Capitan) (sig : Signal) : Capitan × Trace :=
  match SMap.find c.workers sig with
  | none => (c, [])
  | some w =>
    match w.events with
    | [] => (c, [])
    | e :: rest =>
      let c1 : Capitan := { c with workers := SMap.set c.workers sig { w with events := rest } }
      c1.processEvent env sig e

/-- The `case <-c.shutdown` branch of an in-table worker's loop: drain the
remaining events then exit — the deferred cleanup deletes the worker from
the table and the goroutine's `wg.Done` fires.  Only enabled once the
global shutdown signal is closed (an in-table worker's own done signal is
never closed: `unregister` closes it only while also removing the worker
from the table). -/
def Capitan.workerStop (env : PanicEnv) (c : Capitan) (sig : Signal) : Capitan × Trace :=
  match SMap.find c.workers sig with
  | none => (c, [])
  | some w =>
    if c.shutdownClosed then
      let r := Capitan.drainEvents env { c with workers := SMap.erase c.workers sig } sig w.events
      (r.1, r.2)
    else (c, [])

/-- The `case <-state.done` branch for a worker already removed from the
table by `unregister`: drain the remaining events, then the goroutine exits
(`wg.Done`). -/
def Capitan.exitDrain (env : PanicEnv) (c : Capitan) (sig : Signal) : Capitan × Trace :=
  match SMap.find c.exiting sig with
  | none => (c, [])
  | some w =>
    let r := Capitan.drainEvents env { c with exiting := SMap.erase c.exiting sig } sig w.events
    (r.1, r.2)

/-- Drain-and-exit of a list of workers, in order, accumulating the trace. -/
def drainAll (env : PanicEnv) : Capitan → List (Signal × WorkerState) → Capitan × Trace
  | c, [] => (c, [])
  | c, (sig, w) :: rest =>
    let r := Capitan.drainEvents env c sig w.events
    let r2 := drainAll env r.1 rest
    (r2.1, r.2 ++ r2.2)

/-- `Shutdown()` (the dispatch engine): `shutdownOnce.Do(close(c.shutdown))`
— the signal is closed exactly once, a second call skips the close — then
`wg.Wait()` blocks until every worker goroutine has exited.  Sequentially:
every worker (in-table, and already-exiting ones signalled by `unregister`)
takes its shutdown/done branch, drains its queue and exits; only then does
`Shutdown` return. -/
def Capitan.shutdownBus (env : PanicEnv) (c : Capitan) : Capitan × Trace :=
  let c0 : Capitan := { c with shutdownClosed := true }
  let r := drainAll env c0 c0.workers
  let r2 := drainAll env r.1 c.exiting
  ({ r2.1 with workers := [], exiting := [] }, r.2 ++ r2.2)

/-- The interface of the bus, as one step alphabet: every public operation
plus the two scheduler-driven worker steps. -/
inductive Op where
  | hook (sig : Signal) (cb : Nat)
  | observe (cb : Nat) (sigs : List Signal)
  | emit (sig : Signal) (ctxCanceled : Bool) (sev : Severity) (fields : List Field) (pickDrop : Bool)
  | closeListener (lid : Nat)
  | closeObserver (oid : Nat)
  | workerDeq (sig : Signal)
  | workerStop (sig : Signal)
  | exitDrain (sig : Signal)
  | shutdown
deriving DecidableEq, Repr

/-- One atomic step of the sequential semantics. -/
def Capitan.step (env : PanicEnv) (c : Capitan) : Op → Capitan × Trace
  | .hook sig cb => ((c.hook sig cb).1, [])
  | .observe cb sigs => ((c.observe cb sigs).1, [])
  | .emit sig cc sev fields pickDrop => ((c.emit sig cc sev fields pickDrop).1, [])
  | .closeListener lid => (c.closeListener lid, [])
  | .closeObserver oid => (c.closeObserver oid, [])
  | .workerDeq sig => c.workerDeq env sig
  | .workerStop sig => c.workerStop env sig
  | .exitDrain sig => c.exitDrain env sig
  | .shutdown => c.shutdownBus env

/-- A whole run: fold the steps, accumulating the trace. -/
def Capitan.run (env : PanicEnv) : Capitan → List Op → Capitan × Trace
  | c, [] => (c, [])
  | c, op :: ops =>
    let r := c.step env op
    let r2 := Capitan.run env r.1 ops
    (r2.1, r.2 ++ r2.2)

/-! ### Signal-map lemmas -/

theorem SMap.find_set {β : Type} (m : List (Signal × β)) (k : Signal) (v : β) (n : Signal) :
    SMap.find (SMap.set m k v) n = if n = k then some v else SMap.find m n := by
  induction m with
  | nil =>
    rcases eq_or_ne n k with h | h
    · subst h; simp [SMap.set, SMap.find]
    · simp [SMap.set, SMap.find, Ne.symm h, h]
  | cons p rest ih =>
    rcases eq_or_ne p.1 k with hpk | hpk
    · rw [SMap.set, if_pos hpk]
      rcases eq_or_ne n k with h | h
      · subst h; simp [SMap.find]
      · have hpn : p.1 ≠ n := by rw [hpk]; exact Ne.symm h
        rw [SMap.find, if_neg (Ne.symm h), SMap.find, if_neg hpn, if_neg h]
    · rw [SMap.set, if_neg hpk]
      rcases eq_or_ne n k with h | h
      · have hpn : p.1 ≠ n := fun hc => hpk (h ▸ hc)
        rw [SMap.find, if_neg hpn, ih, if_pos h, if_pos h]
      · rcases eq_or_ne p.1 n with hpn | hpn
        · rw [SMap.find, if_pos hpn, SMap.find, if_pos hpn, if_neg h]
        · rw [SMap.find, if_neg hpn, ih, SMap.find, if_neg hpn]

theorem SMap.find_erase {β : Type} (m : List (Signal × β)) (k n : Signal) :
    SMap.find (SMap.erase m k) n = if n = k then none else SMap.find m n := by
  induction m with
  | nil => simp [SMap.erase, SMap.find]
  | cons p rest ih =>
    rcases eq_or_ne p.1 k with hpk | hpk
    · rw [SMap.erase, if_pos hpk, ih]
      rcases eq_or_ne n k with h | h
      · rw [if_pos h, if_pos h]
      · have hpn : p.1 ≠ n := by rw [hpk]; exact Ne.symm h
        rw [if_neg h, if_neg h, SMap.find, if_neg hpn]
    · rw [SMap.erase, if_neg hpk]
      rcases eq_or_ne p.1 n with hpn | hpn
      · have hnk : n ≠ k := fun hc => hpk (hpn.symm ▸ hc)
        rw [SMap.find, if_pos hpn, if_neg hnk, SMap.find, if_pos hpn]
      · rw [SMap.find, if_neg hpn, ih, SMap.find, if_neg hpn]

theorem SMap.mem_set {β : Type} {m : List (Signal × β)} {k : Signal} {v : β}
    {p : Signal × β} (hp : p ∈ SMap.set m k v) : p ∈ m ∨ p = (k, v) := by
  induction m with
  | nil => simp [SMap.set] at hp; simp [hp]
  | cons q rest ih =>
    by_cases hq : q.1 = k
    · rw [SMap.set, if_pos hq] at hp
      rcases List.mem_cons.mp hp with h | h
      · exact Or.inr h
      · exact Or.inl (List.mem_cons_of_mem _ h)
    · rw [SMap.set, if_neg hq] at hp
      rcases List.mem_cons.mp hp with h | h
      · exact Or.inl (h ▸ List.mem_cons_self _ _)
      · rcases ih h with h₂ | h₂
        · exact Or.inl (List.mem_cons_of_mem _ h₂)
        · exact Or.inr h₂

theorem SMap.find_mem {β : Type} {m : List (Signal × β)} {k : Signal} {v : β}
    (h : SMap.find m k = some v) : (k, v) ∈ m := by
  induction m with
  | nil => simp [SMap.find] at h
  | cons p rest ih =>
    by_cases hp : p.1 = k
    · rw [SMap.find, if_pos hp] at h
      have : p = (k, v) := by
        cases p
        simp only [Option.some.injEq] at h
        simp_all
      exact this ▸ List.mem_cons_self _ _
    · rw [SMap.find, if_neg hp] at h
      exact List.mem_cons_of_mem _ (ih h)

theorem SMap.find_none_ne {β : Type} {m : List (Signal × β)} {k : Signal}
    (h : SMap.find m k = none) : ∀ p ∈ m, p.1 ≠ k := by
  induction m with
  | nil => intro p hp; simp at hp
  | cons q rest ih =>
    by_cases hq : q.1 = k
    · rw [SMap.find, if_pos hq] at h; exact absurd h (by simp)
    · rw [SMap.find, if_neg hq] at h
      intro p hp
      rcases List.mem_cons.mp hp with h₂ | h₂
      · exact h₂ ▸ hq
      · exact ih h p h₂

theorem regGet_set (m : List (Signal × List Listener)) (k : Signal)
    (v : List Listener) (n : Signal) :
    regGet (SMap.set m k v) n = if n = k then v else regGet m n := by
  unfold regGet
  rw [SMap.find_set]
  by_cases hnk : n = k <;> simp [hnk]

/-! ### Observer-attachment lemmas -/

theorem attachOne_workers (c : Capitan) (sig : Signal) (oid : Nat) :
    (attachOne c sig oid).workers = c.workers := by
  unfold attachOne
  cases obsFind c.obsHeap oid with
  | none => rfl
  | some obs =>
    simp only
    split
    · rfl
    · rfl

theorem attachObservers_workers (c : Capitan) (sig : Signal) :
    (c.attachObservers sig).workers = c.workers := by
  unfold Capitan.attachObservers
  induction c.observers generalizing c with
  | nil => rfl
  | cons oid rest ih =>
    simp only [List.foldl_cons]
    rw [ih (attachOne c sig oid)]
    exact attachOne_workers c sig oid

theorem attachOne_regGet_ne (c : Capitan) (sig : Signal) (oid : Nat) (n : Signal)
    (hn : n ≠ sig) : regGet (attachOne c sig oid).registry n = regGet c.registry n := by
  unfold attachOne
  cases obsFind c.obsHeap oid with
  | none => rfl
  | some obs =>
    simp only
    split
    · simp only [regGet_set, if_neg hn]
    · rfl

theorem attachObservers_regGet_ne (c : Capitan) (sig : Signal) (n : Signal)
    (hn : n ≠ sig) : regGet (c.attachObservers sig).registry n = regGet c.registry n := by
  unfold Capitan.attachObservers
  induction c.observers generalizing c with
  | nil => rfl
  | cons oid rest ih =>
    simp only [List.foldl_cons]
    rw [ih (attachOne c sig oid)]
    exact attachOne_regGet_ne c sig oid n hn

/-! ### Lazy worker creation (C2) -/

/-- The worker-table invariant behind lazy worker creation: every signal
with a worker has a non-empty listener slice.  It holds for a fresh bus and
is preserved by `Emit`. -/
def workersHaveListeners (c : Capitan) : Prop :=
  ∀ p ∈ c.workers, regGet c.registry p.1 ≠ []

theorem poolGet_workers (c : Capitan) : (poolGet c).2.workers = c.workers := by
  unfold poolGet; cases c.pool <;> rfl

theorem poolGet_registry (c : Capitan) : (poolGet c).2.registry = c.registry := by
  unfold poolGet; cases c.pool <;> rfl

theorem poolGet_nextId (c : Capitan) : (poolGet c).2.nextId = c.nextId := by
  unfold poolGet; cases c.pool <;> rfl

theorem poolGet_bufferSize (c : Capitan) : (poolGet c).2.bufferSize = c.bufferSize := by
  unfold poolGet; cases c.pool <;> rfl

theorem poolGet_shutdownClosed (c : Capitan) : (poolGet c).2.shutdownClosed = c.shutdownClosed := by
  unfold poolGet; cases c.pool <;> rfl

theorem ensureWorker_false_workers (c : Capitan) (sig : Signal)
    (h : (c.ensureWorker sig).2 = false) : (c.ensureWorker sig).1.workers = c.workers := by
  simp only [Capitan.ensureWorker] at h ⊢
  split_ifs at h ⊢ with h1 h2 h3 h4
  · rfl
  · rw [attachObservers_workers]

theorem ensureWorker_preserves (c : Capitan) (sig : Signal)
    (hW : workersHaveListeners c) : workersHaveListeners (c.ensureWorker sig).1 := by
  have hnone : ¬(SMap.find c.workers sig).isSome = true → SMap.find c.workers sig = none := by
    intro h
    cases hf : SMap.find c.workers sig with
    | none => rfl
    | some w => rw [hf] at h; simp at h
  simp only [Capitan.ensureWorker]
  split_ifs with h1 h2 h3 h4
  · exact hW
  · -- registry entry existed with no listeners and no worker: nothing changes
    exact hW
  · -- first-ever use, still no listeners after attachment: workers untouched
    intro p hp
    rw [attachObservers_workers] at hp
    have hne : p.1 ≠ sig := SMap.find_none_ne (hnone h1) p hp
    rw [attachObservers_regGet_ne _ _ _ hne, regGet_set, if_neg hne]
    exact hW p hp
  · -- first-ever use, attachment produced listeners: worker created for sig
    intro p hp
    rcases SMap.mem_set hp with hpw | hpv
    · rw [attachObservers_workers] at hpw
      have hne : p.1 ≠ sig := SMap.find_none_ne (hnone h1) p hpw
      rw [attachObservers_regGet_ne _ _ _ hne, regGet_set, if_neg hne]
      exact hW p hpw
    · rw [hpv]
      simpa using h4
  · -- the signal already had listeners: worker created, registry unchanged
    intro p hp
    rcases SMap.mem_set hp with hpw | hpv
    · exact hW p hpw
    · rw [hpv]
      simpa using h2

theorem emit_preserves_workersHaveListeners (c : Capitan) (sig : Signal) (cc : Bool)
    (sev : Severity) (fs : List Field) (pd : Bool) (hW : workersHaveListeners c) :
    workersHaveListeners (c.emit sig cc sev fs pd).1 := by
  have hr := ensureWorker_preserves c sig hW
  have hg : workersHaveListeners (poolGet (c.ensureWorker sig).1).2 := by
    intro p hp
    rw [poolGet_workers] at hp
    rw [poolGet_registry]
    exact hr p hp
  simp only [Capitan.emit]
  split_ifs with h1
  · exact hr
  · split
    · -- worker gone between the two lookups: event pooled, nothing else changes
      exact fun p hp => hg p hp
    · rename_i w heq
      split_ifs with h2 h3
      · -- enqueued: the updated worker entry still has listeners
        intro p hp
        rcases SMap.mem_set hp with hpw | hpv
        · exact hg p hpw
        · rw [hpv]
          exact hg (sig, w) (SMap.find_mem heq)
      · exact fun p hp => hg p hp
      · exact fun p hp => hg p hp

instance (c : Capitan) : Decidable (workersHaveListeners c) :=
  inferInstanceAs (Decidable (∀ p ∈ c.workers, regGet c.registry p.1 ≠ []))

/-- A sequence of `Emit` calls, each argument tuple being
(signal, context-canceled, severity, fields, select choice). -/
def emitMany (c : Capitan) (args : List (Signal × Bool × Severity × List Field × Bool)) :
    Capitan :=
  args.foldl (fun c a => (c.emit a.1 a.2.1 a.2.2.1 a.2.2.2.1 a.2.2.2.2).1) c

theorem emitMany_preserves (args : List (Signal × Bool × Severity × List Field × Bool)) :
    ∀ c : Capitan, workersHaveListeners c → workersHaveListeners (emitMany c args) := by
  induction args with
  | nil => exact fun c h => h
  | cons a rest ih =>
    intro c h
    exact ih _ (emit_preserves_workersHaveListeners c a.1 a.2.1 a.2.2.1 a.2.2.2.1 a.2.2.2.2 h)

/-- C2: for a signal whose registry entry still has zero listeners after
observer attachment has run (the slow path of `Emit` reports no listeners),
`Emit` returns without allocating a worker — the worker table is left
unchanged and the call reports `noListeners`; and from any state satisfying
the worker-table invariant (which a fresh bus does), after any number of
further `Emit` calls, a signal with zero registered listeners has no entry
in the worker table. -/
theorem emit_lazy_no_worker (c : Capitan) (sig : Signal) (cc : Bool) (sev : Severity)
    (fs : List Field) (pd : Bool) (bs : Nat) (ph : Bool)
    (args : List (Signal × Bool × Severity × List Field × Bool))
    (hW : workersHaveListeners c) :
    ((c.ensureWorker sig).2 = false →
        (c.emit sig cc sev fs pd).1.workers = c.workers
          ∧ (c.emit sig cc sev fs pd).2 = EmitOutcome.noListeners)
    ∧ workersHaveListeners (Capitan.new bs ph)
    ∧ (∀ sig', regGet (emitMany c args).registry sig' = [] →
         SMap.find (emitMany c args).workers sig' = none) := by
  refine ⟨?_, ?_, ?_⟩
  · intro h
    constructor
    · have h2 := ensureWorker_false_workers c sig h
      simp only [Capitan.emit, h, if_pos]
      exact h2
    · simp only [Capitan.emit, h, if_pos]
  · intro p hp
    simp [Capitan.new] at hp
  · have hfin := emitMany_preserves args c hW
    intro sig' hempty
    cases hf : SMap.find (emitMany c args).workers sig' with
    | none => rfl
    | some w =>
      exact absurd hempty (by
        have := hfin (sig', w) (SMap.find_mem hf)
        simpa using this)

/-- Witness for C2 at a concrete input: on a fresh bus, emitting to a signal
nobody listens to reports no listeners and leaves the worker table empty. -/
theorem emit_lazy_no_worker_witness :
    workersHaveListeners (Capitan.new 16 false)
      ∧ ((Capitan.new 16 false).ensureWorker "s").2 = false
      ∧ ((Capitan.new 16 false).emit "s" false SeverityInfo [] false).1.workers
          = (Capitan.new 16 false).workers := by
  have h := emit_lazy_no_worker (Capitan.new 16 false) "s" false SeverityInfo [] false
    16 false [("s", false, SeverityInfo, [], false)] (by decide)
  exact ⟨by decide, by decide, (h.1 (by decide)).1⟩

/-! ### Per-event processing lemmas -/

/-- The trace one event produces, as a pure function of the registry
snapshot and the configuration: nothing for a canceled event, otherwise one
panic-isolated invocation per listener in the snapshot, in slice order. -/
def eventTrace (env : PanicEnv) (reg : List (Signal × List Listener)) (phSet : Bool)
    (sig : Signal) (e : Event) : Trace :=
  if e.ctxCanceled then []
  else (regGet reg sig).flatMap (invokeListener env phSet sig e.id)

theorem processEvent_fst (env : PanicEnv) (c : Capitan) (sig : Signal) (e : Event) :
    (c.processEvent env sig e).1 = poolPut c e := by
  unfold Capitan.processEvent
  split <;> rfl

theorem processEvent_snd (env : PanicEnv) (c : Capitan) (sig : Signal) (e : Event) :
    (c.processEvent env sig e).2 = eventTrace env c.registry c.panicHandlerSet sig e := by
  unfold Capitan.processEvent eventTrace
  split <;> rfl

theorem drainEvents_fst (env : PanicEnv) (sig : Signal) (q : List Event) :
    ∀ c : Capitan, (Capitan.drainEvents env c sig q).1 =
      { c with pool := c.pool ++ q.map (fun e => e.fields) } := by
  induction q with
  | nil => intro c; simp [Capitan.drainEvents]
  | cons e rest ih =>
    intro c
    simp only [Capitan.drainEvents, processEvent_fst]
    rw [ih]
    simp [poolPut, List.append_assoc]

theorem drainEvents_snd (env : PanicEnv) (sig : Signal) (q : List Event) :
    ∀ c : Capitan, (Capitan.drainEvents env c sig q).2 =
      q.flatMap (eventTrace env c.registry c.panicHandlerSet sig) := by
  induction q with
  | nil => intro c; rfl
  | cons e rest ih =>
    intro c
    simp only [Capitan.drainEvents, processEvent_fst, processEvent_snd]
    rw [ih (poolPut c e)]
    rfl

/-- C4: during fan-out of one event (context not canceled), every listener
in the snapshot is invoked — a panic inside any callback is caught by the
per-invocation recover wrapper, does not escape the worker, and does not
prevent the remaining listeners in the snapshot from being invoked; for a
listener whose callback panics, the configured panic handler is called with
the signal and the recovered value, and when no handler is configured no
handler call appears at all (the panic is discarded). -/
theorem processEvent_panic_isolation (env : PanicEnv) (c : Capitan) (sig : Signal)
    (e : Event) (hcc : e.ctxCanceled = false) :
    (∀ l ∈ regGet c.registry sig, TraceItem.invoke l sig e.id ∈ (c.processEvent env sig e).2)
    ∧ (∀ l ∈ regGet c.registry sig, ∀ r, env l.cb = some r →
        c.panicHandlerSet = true → TraceItem.handler sig r ∈ (c.processEvent env sig e).2)
    ∧ (c.panicHandlerSet = false →
        ∀ s v, TraceItem.handler s v ∉ (c.processEvent env sig e).2) := by
  rw [processEvent_snd]
  unfold eventTrace
  rw [if_neg (by simp [hcc])]
  refine ⟨?_, ?_, ?_⟩
  · intro l hl
    exact List.mem_flatMap.mpr ⟨l, hl, by simp [invokeListener]⟩
  · intro l hl r hr hph
    refine List.mem_flatMap.mpr ⟨l, hl, ?_⟩
    simp [invokeListener, hr, hph]
  · intro hph s v hmem
    rcases List.mem_flatMap.mp hmem with ⟨l, _, hx⟩
    unfold invokeListener at hx
    rcases List.mem_cons.mp hx with h | h
    · exact absurd h (by simp)
    · cases henv : env l.cb with
      | none => rw [henv] at h; exact absurd h (by simp)
      | some r => rw [henv, hph] at h; exact absurd h (by simp)

/-- Witness for C4 at a concrete input: on a fresh bus with one listener
hooked (its callback panicking) and no handler configured, processing one
event still invokes that listener. -/
theorem processEvent_panic_isolation_witness :
    TraceItem.invoke { id := 0, signal := "s", cb := 0, owner := none } "s" 5 ∈
      (((Capitan.new 16 false).hook "s" 0).1.processEvent
        (fun cb => if cb = 0 then some 7 else none) "s"
        (newEvent [] 5 false "s" SeverityInfo [])).2 :=
  (processEvent_panic_isolation (fun cb => if cb = 0 then some 7 else none)
      ((Capitan.new 16 false).hook "s" 0).1 "s"
      (newEvent [] 5 false "s" SeverityInfo []) (by decide)).1
    { id := 0, signal := "s", cb := 0, owner := none } (by decide)

/-- The part of one panic-isolated invocation after the callback starts:
empty on normal return, the handler call on a panic with a handler set. -/
def invokeTail (env : PanicEnv) (phSet : Bool) (sig : Signal) (cb : Nat) : Trace :=
  match env cb with
  | some r => if phSet then [TraceItem.handler sig r] else []
  | none => []

theorem invokeListener_eq (env : PanicEnv) (phSet : Bool) (sig : Signal) (eid : Nat)
    (l : Listener) :
    invokeListener env phSet sig eid l =
      TraceItem.invoke l sig eid :: invokeTail env phSet sig l.cb := rfl

/-- C5: per-signal FIFO — for one signal S and a listener L in its snapshot,
if events E1 and then E2 sit in S's worker queue in that order (both with
live contexts), the worker's in-order processing of the queue invokes L for
E1 strictly before it invokes L for E2. -/
theorem perSignal_fifo (env : PanicEnv) (c : Capitan) (sig : Signal) (L : Listener)
    (e1 e2 : Event) (q1 q2 q3 : List Event)
    (hL : L ∈ regGet c.registry sig)
    (h1 : e1.ctxCanceled = false) (h2 : e2.ctxCanceled = false) :
    ∃ t1 t2 t3 : Trace,
      (Capitan.drainEvents env c sig (q1 ++ e1 :: q2 ++ e2 :: q3)).2 =
        t1 ++ TraceItem.invoke L sig e1.id
          :: (t2 ++ TraceItem.invoke L sig e2.id :: t3) := by
  rw [drainEvents_snd]
  rcases List.append_of_mem hL with ⟨x, y, hxy⟩
  have hτ : ∀ e : Event, e.ctxCanceled = false →
      eventTrace env c.registry c.panicHandlerSet sig e =
        x.flatMap (invokeListener env c.panicHandlerSet sig e.id)
          ++ TraceItem.invoke L sig e.id
            :: (invokeTail env c.panicHandlerSet sig L.cb
                ++ y.flatMap (invokeListener env c.panicHandlerSet sig e.id)) := by
    intro e he
    unfold eventTrace
    rw [if_neg (by simp [he]), hxy]
    simp [List.flatMap_append, invokeListener_eq]
  refine ⟨q1.flatMap (eventTrace env c.registry c.panicHandlerSet sig)
            ++ x.flatMap (invokeListener env c.panicHandlerSet sig e1.id),
          invokeTail env c.panicHandlerSet sig L.cb
            ++ y.flatMap (invokeListener env c.panicHandlerSet sig e1.id)
            ++ q2.flatMap (eventTrace env c.registry c.panicHandlerSet sig)
            ++ x.flatMap (invokeListener env c.panicHandlerSet sig e2.id),
          invokeTail env c.panicHandlerSet sig L.cb
            ++ y.flatMap (invokeListener env c.panicHandlerSet sig e2.id)
            ++ q3.flatMap (eventTrace env c.registry c.panicHandlerSet sig), ?_⟩
  rw [List.flatMap_append, List.flatMap_cons, List.flatMap_append, List.flatMap_cons,
    hτ e1 h1, hτ e2 h2]
  simp [List.append_assoc]

/-- Witness for C5 at a concrete input: one hooked listener, two queued
events with ids 5 and 6; the drain trace invokes the listener for 5 before
6. -/
theorem perSignal_fifo_witness :
    ∃ t1 t2 t3 : Trace,
      (Capitan.drainEvents (fun _ => none) ((Capitan.new 16 false).hook "s" 0).1 "s"
          ([] ++ newEvent [] 5 false "s" SeverityInfo []
            :: ([] ++ newEvent [] 6 false "s" SeverityInfo [] :: []))).2 =
        t1 ++ TraceItem.invoke { id := 0, signal := "s", cb := 0, owner := none } "s"
            (newEvent [] 5 false "s" SeverityInfo []).id
          :: (t2 ++ TraceItem.invoke { id := 0, signal := "s", cb := 0, owner := none } "s"
            (newEvent [] 6 false "s" SeverityInfo []).id :: t3) :=
  perSignal_fifo (fun _ => none) ((Capitan.new 16 false).hook "s" 0).1 "s"
    { id := 0, signal := "s", cb := 0, owner := none }
    (newEvent [] 5 false "s" SeverityInfo []) (newEvent [] 6 false "s" SeverityInfo [])
    [] [] [] (by decide) (by decide) (by decide)

/-! ### Shutdown (C1) -/

theorem drainAll_fst (env : PanicEnv) (ws : List (Signal × WorkerState)) :
    ∀ c : Capitan, (drainAll env c ws).1 =
      { c with pool := c.pool ++ ws.flatMap (fun p => p.2.events.map (fun e => e.fields)) } := by
  induction ws with
  | nil => intro c; simp [drainAll]
  | cons p rest ih =>
    intro c
    cases p with
    | mk sig w =>
      simp only [drainAll, drainEvents_fst]
      rw [ih]
      simp [List.append_assoc]

theorem drainAll_snd (env : PanicEnv) (ws : List (Signal × WorkerState)) :
    ∀ c : Capitan, (drainAll env c ws).2 =
      ws.flatMap (fun p => p.2.events.flatMap (eventTrace env c.registry c.panicHandlerSet p.1)) := by
  induction ws with
  | nil => intro c; rfl
  | cons p rest ih =>
    intro c
    cases p with
    | mk sig w =>
      simp only [drainAll, drainEvents_fst, drainEvents_snd]
      rw [ih]
      rfl

theorem shutdownBus_of_empty (env : PanicEnv) (X : Capitan) (hw : X.workers = [])
    (he : X.exiting = []) (hs : X.shutdownClosed = true) : X.shutdownBus env = (X, []) := by
  cases X with
  | mk reg w oh ob sc ex pool cr ni bs ph =>
    obtain rfl : w = [] := hw
    obtain rfl : ex = [] := he
    obtain rfl : sc = true := hs
    rfl

/-- C1: `Shutdown` closes the global shutdown signal exactly once (a second
call is a no-op: running shutdown on an already-shut-down bus changes
nothing and produces no action) and returns only after every worker running
at the time — in the worker table or already unregistered and draining —
has drained its queue and exited (worker table and draining set end empty);
every event that was enqueued to any worker's queue before the call is
processed before it returns: for an event with a live context, every
listener registered for its signal is invoked in the shutdown trace. -/
theorem shutdown_drains (env : PanicEnv) (c : Capitan) :
    ((c.shutdownBus env).1.shutdownClosed = true
      ∧ (c.shutdownBus env).1.workers = []
      ∧ (c.shutdownBus env).1.exiting = [])
    ∧ (c.shutdownBus env).1.shutdownBus env = ((c.shutdownBus env).1, [])
    ∧ (∀ p ∈ c.workers ++ c.exiting, ∀ e ∈ p.2.events, e.ctxCanceled = false →
        ∀ l ∈ regGet c.registry p.1, TraceItem.invoke l p.1 e.id ∈ (c.shutdownBus env).2) := by
  have hS : (c.shutdownBus env).1.shutdownClosed = true := by
    show (Capitan.shutdownBus env c).1.shutdownClosed = true
    unfold Capitan.shutdownBus
    simp only [drainAll_fst]
  have hW : (c.shutdownBus env).1.workers = [] := rfl
  have hE : (c.shutdownBus env).1.exiting = [] := rfl
  refine ⟨⟨hS, hW, hE⟩, shutdownBus_of_empty env _ hW hE hS, ?_⟩
  intro p hp e he hcc l hl
  have hmem : TraceItem.invoke l p.1 e.id ∈
      p.2.events.flatMap (eventTrace env c.registry c.panicHandlerSet p.1) := by
    refine List.mem_flatMap.mpr ⟨e, he, ?_⟩
    unfold eventTrace
    rw [if_neg (by simp [hcc])]
    exact List.mem_flatMap.mpr ⟨l, hl, by simp [invokeListener_eq]⟩
  have htr : (c.shutdownBus env).2 =
      c.workers.flatMap
          (fun p => p.2.events.flatMap (eventTrace env c.registry c.panicHandlerSet p.1))
        ++ c.exiting.flatMap
          (fun p => p.2.events.flatMap (eventTrace env c.registry c.panicHandlerSet p.1)) := by
    show (Capitan.shutdownBus env c).2 = _
    unfold Capitan.shutdownBus
    simp only [drainAll_snd, drainAll_fst]
  rw [htr]
  rcases List.mem_append.mp hp with h | h
  · exact List.mem_append.mpr (Or.inl (List.mem_flatMap.mpr ⟨p, h, hmem⟩))
  · exact List.mem_append.mpr (Or.inr (List.mem_flatMap.mpr ⟨p, h, hmem⟩))

/-- Witness for C1 at a concrete input: a bus with one worker holding one
queued live event and one listener registered; the shutdown trace invokes
the listener for that event. -/
theorem shutdown_drains_witness :
    TraceItem.invoke { id := 0, signal := "s", cb := 0, owner := none } "s"
        (newEvent [] 5 false "s" SeverityInfo []).id ∈
      (Capitan.shutdownBus (fun _ => none)
        { registry := [("s", [{ id := 0, signal := "s", cb := 0, owner := none }])],
          workers := [("s", { events := [newEvent [] 5 false "s" SeverityInfo []],
                              doneClosed := false })],
          obsHeap := [], observers := [], shutdownClosed := false, exiting := [],
          pool := [], created := [{ id := 0, signal := "s", cb := 0, owner := none }],
          nextId := 6, bufferSize := 16, panicHandlerSet := false }).2 :=
  (shutdown_drains (fun _ => none)
      { registry := [("s", [{ id := 0, signal := "s", cb := 0, owner := none }])],
        workers := [("s", { events := [newEvent [] 5 false "s" SeverityInfo []],
                            doneClosed := false })],
        obsHeap := [], observers := [], shutdownClosed := false, exiting := [],
        pool := [], created := [{ id := 0, signal := "s", cb := 0, owner := none }],
        nextId := 6, bufferSize := 16, panicHandlerSet := false }).2.2
    ("s", { events := [newEvent [] 5 false "s" SeverityInfo []], doneClosed := false })
    (by decide) (newEvent [] 5 false "s" SeverityInfo []) (by decide) (by decide)
    { id := 0, signal := "s", cb := 0, owner := none } (by decide)

/-! ### Canceled emissions are never delivered (C3) -/

/-- Every event currently sitting in some worker's queue (in the table or
draining). -/
def queuedEvents (c : Capitan) : List Event :=
  c.workers.flatMap (fun p => p.2.events) ++ c.exiting.flatMap (fun p => p.2.events)

/-- All queued event ids were allocated in the past. -/
def queueIdsFresh (c : Capitan) : Prop :=
  ∀ e ∈ queuedEvents c, e.id < c.nextId

/-- The tracked emission `eid` lies in the allocator's past and every queued
copy of it carries a canceled context. -/
def eventIdCanceled (c : Capitan) (eid : Nat) : Prop :=
  eid < c.nextId ∧ ∀ e ∈ queuedEvents c, e.id = eid → e.ctxCanceled = true

instance (c : Capitan) : Decidable (queueIdsFresh c) :=
  inferInstanceAs (Decidable (∀ e ∈ queuedEvents c, e.id < c.nextId))

theorem eventIdCanceled_mono {c c' : Capitan} {eid : Nat} (h : eventIdCanceled c eid)
    (hn : c.nextId ≤ c'.nextId)
    (hq : ∀ e ∈ queuedEvents c', e ∈ queuedEvents c ∨ e.id ≠ eid) :
    eventIdCanceled c' eid := by
  refine ⟨lt_of_lt_of_le h.1 hn, ?_⟩
  intro e he heid
  rcases hq e he with h2 | h2
  · exact h.2 e h2 heid
  · exact absurd heid h2

theorem eventTrace_invoke_id (env : PanicEnv) (reg : List (Signal × List Listener))
    (ph : Bool) (sig : Signal) (e : Event) {l : Listener} {s : Signal} {i : Nat}
    (h : TraceItem.invoke l s i ∈ eventTrace env reg ph sig e) :
    i = e.id ∧ e.ctxCanceled = false := by
  unfold eventTrace at h
  by_cases hc : e.ctxCanceled = true
  · rw [if_pos hc] at h
    simp at h
  · rw [if_neg hc] at h
    rcases List.mem_flatMap.mp h with ⟨l2, _, hx⟩
    rw [invokeListener_eq] at hx
    rcases List.mem_cons.mp hx with h2 | h2
    · injection h2 with h3 h4 h5
      exact ⟨h5, by simpa using hc⟩
    · exfalso
      unfold invokeTail at h2
      cases henv : env l2.cb with
      | none => rw [henv] at h2; simp at h2
      | some r =>
        rw [henv] at h2
        split at h2 <;> simp at h2

theorem eventTrace_no_invoke (env : PanicEnv) (reg : List (Signal × List Listener))
    (ph : Bool) (sig : Signal) (e : Event) (eid : Nat)
    (h : e.id = eid → e.ctxCanceled = true) :
    ∀ l s, TraceItem.invoke l s eid ∉ eventTrace env reg ph sig e := by
  intro l s hmem
  rcases eventTrace_invoke_id env reg ph sig e hmem with ⟨h1, h2⟩
  rw [h h1.symm] at h2
  exact absurd h2 (by simp)

theorem SMap.mem_erase {β : Type} {m : List (Signal × β)} {k : Signal} {p : Signal × β}
    (hp : p ∈ SMap.erase m k) : p ∈ m := by
  induction m with
  | nil => simp [SMap.erase] at hp
  | cons q rest ih =>
    by_cases hq : q.1 = k
    · rw [SMap.erase, if_pos hq] at hp
      exact List.mem_cons_of_mem _ (ih hp)
    · rw [SMap.erase, if_neg hq] at hp
      rcases List.mem_cons.mp hp with h | h
      · exact h ▸ List.mem_cons_self _ _
      · exact List.mem_cons_of_mem _ (ih h)

theorem attachOne_exiting (c : Capitan) (sig : Signal) (oid : Nat) :
    (attachOne c sig oid).exiting = c.exiting := by
  unfold attachOne
  cases obsFind c.obsHeap oid with
  | none => rfl
  | some obs => simp only; split <;> rfl

theorem attachOne_nextId_le (c : Capitan) (sig : Signal) (oid : Nat) :
    c.nextId ≤ (attachOne c sig oid).nextId := by
  unfold attachOne
  cases obsFind c.obsHeap oid with
  | none => exact le_refl _
  | some obs =>
    simp only; split
    · exact Nat.le_succ _
    · exact le_refl _

theorem attachObservers_exiting (c : Capitan) (sig : Signal) :
    (c.attachObservers sig).exiting = c.exiting := by
  unfold Capitan.attachObservers
  induction c.observers generalizing c with
  | nil => rfl
  | cons oid rest ih =>
    simp only [List.foldl_cons]
    rw [ih (attachOne c sig oid)]
    exact attachOne_exiting c sig oid

theorem attachObservers_nextId_le (c : Capitan) (sig : Signal) :
    c.nextId ≤ (c.attachObservers sig).nextId := by
  unfold Capitan.attachObservers
  induction c.observers generalizing c with
  | nil => exact le_refl _
  | cons oid rest ih =>
    simp only [List.foldl_cons]
    exact le_trans (attachOne_nextId_le c sig oid) (ih (attachOne c sig oid))

theorem attachObservers_nextId_le2 (c : Capitan) (sig : Signal) (n : Nat)
    (h : n ≤ c.nextId) : n ≤ (c.attachObservers sig).nextId :=
  le_trans h (attachObservers_nextId_le c sig)

theorem observeFold_workers (cb oid : Nat) (keys : List Signal) :
    ∀ acc : Capitan × Observer,
      (keys.foldl (observeStep cb oid) acc).1.workers = acc.1.workers := by
  induction keys with
  | nil => intro acc; rfl
  | cons k rest ih =>
    intro acc
    simp only [List.foldl_cons]
    rw [ih]
    unfold observeStep
    split <;> rfl

theorem observeFold_exiting (cb oid : Nat) (keys : List Signal) :
    ∀ acc : Capitan × Observer,
      (keys.foldl (observeStep cb oid) acc).1.exiting = acc.1.exiting := by
  induction keys with
  | nil => intro acc; rfl
  | cons k rest ih =>
    intro acc
    simp only [List.foldl_cons]
    rw [ih]
    unfold observeStep
    split <;> rfl

theorem observeFold_nextId_le (cb oid : Nat) (keys : List Signal) :
    ∀ acc : Capitan × Observer,
      acc.1.nextId ≤ (keys.foldl (observeStep cb oid) acc).1.nextId := by
  induction keys with
  | nil => intro acc; exact le_refl _
  | cons k rest ih =>
    intro acc
    simp only [List.foldl_cons]
    refine le_trans ?_ (ih (observeStep cb oid acc k))
    unfold observeStep
    split
    · exact Nat.le_succ _
    · exact le_refl _

theorem observeFold_nextId_le2 (cb oid : Nat) (keys : List Signal)
    (acc : Capitan × Observer) (n : Nat) (h : n ≤ acc.1.nextId) :
    n ≤ (keys.foldl (observeStep cb oid) acc).1.nextId :=
  le_trans h (observeFold_nextId_le cb oid keys acc)

theorem hook_workers (c : Capitan) (sig : Signal) (cb : Nat) :
    (c.hook sig cb).1.workers = c.workers := by
  simp only [Capitan.hook]
  split
  · rfl
  · rw [attachObservers_workers]

theorem hook_exiting (c : Capitan) (sig : Signal) (cb : Nat) :
    (c.hook sig cb).1.exiting = c.exiting := by
  simp only [Capitan.hook]
  split
  · rfl
  · rw [attachObservers_exiting]

theorem hook_nextId_le (c : Capitan) (sig : Signal) (cb : Nat) :
    c.nextId ≤ (c.hook sig cb).1.nextId := by
  simp only [Capitan.hook]
  split
  · exact Nat.le_succ _
  · exact attachObservers_nextId_le2 _ sig _ (Nat.le_succ c.nextId)

theorem observe_workers (c : Capitan) (cb : Nat) (sigs : List Signal) :
    (c.observe cb sigs).1.workers = c.workers := by
  simp only [Capitan.observe]
  rw [observeFold_workers]

theorem observe_exiting (c : Capitan) (cb : Nat) (sigs : List Signal) :
    (c.observe cb sigs).1.exiting = c.exiting := by
  simp only [Capitan.observe]
  rw [observeFold_exiting]

theorem observe_nextId_le (c : Capitan) (cb : Nat) (sigs : List Signal) :
    c.nextId ≤ (c.observe cb sigs).1.nextId := by
  simp only [Capitan.observe]
  exact observeFold_nextId_le2 cb c.nextId _ _ _ (Nat.le_succ c.nextId)

theorem ensureWorker_nextId_le (c : Capitan) (sig : Signal) :
    c.nextId ≤ (c.ensureWorker sig).1.nextId := by
  simp only [Capitan.ensureWorker]
  split_ifs with h1 h2 h3 h4
  · exact le_refl _
  · exact le_refl _
  · exact attachObservers_nextId_le2 _ sig _ (le_refl _)
  · exact attachObservers_nextId_le2 _ sig _ (le_refl _)
  · exact le_refl _

theorem ensureWorker_queued (c : Capitan) (sig : Signal) :
    ∀ e ∈ queuedEvents (c.ensureWorker sig).1, e ∈ queuedEvents c := by
  simp only [Capitan.ensureWorker]
  split_ifs with h1 h2 h3 h4
  · exact fun e he => he
  · exact fun e he => he
  · intro e he
    unfold queuedEvents at he ⊢
    rw [attachObservers_workers, attachObservers_exiting] at he
    exact he
  · intro e he
    unfold queuedEvents at he ⊢
    rcases List.mem_append.mp he with hw | hx
    · rcases List.mem_flatMap.mp hw with ⟨p, hp, hep⟩
      rcases SMap.mem_set hp with hpo | hpe
      · rw [attachObservers_workers] at hpo
        exact List.mem_append.mpr (Or.inl (List.mem_flatMap.mpr ⟨p, hpo, hep⟩))
      · rw [hpe] at hep; simp at hep
    · rw [attachObservers_exiting] at hx
      exact List.mem_append.mpr (Or.inr hx)
  · intro e he
    unfold queuedEvents at he ⊢
    rcases List.mem_append.mp he with hw | hx
    · rcases List.mem_flatMap.mp hw with ⟨p, hp, hep⟩
      rcases SMap.mem_set hp with hpo | hpe
      · exact List.mem_append.mpr (Or.inl (List.mem_flatMap.mpr ⟨p, hpo, hep⟩))
      · rw [hpe] at hep; simp at hep
    · exact List.mem_append.mpr (Or.inr hx)

theorem poolGet_exiting (c : Capitan) : (poolGet c).2.exiting = c.exiting := by
  unfold poolGet; cases c.pool <;> rfl

theorem emit_nextId_le (c : Capitan) (sig : Signal) (cc : Bool) (sev : Severity)
    (fs : List Field) (pd : Bool) :
    c.nextId ≤ (c.emit sig cc sev fs pd).1.nextId := by
  have h0 := ensureWorker_nextId_le c sig
  have h1 := poolGet_nextId (c.ensureWorker sig).1
  simp only [Capitan.emit]
  split_ifs with hns
  · exact h0
  · split
    · exact le_trans h0 (le_trans (le_of_eq h1.symm) (Nat.le_succ _))
    · rename_i w heq
      split_ifs with h2 h3
      · exact le_trans h0 (le_trans (le_of_eq h1.symm) (Nat.le_succ _))
      · exact le_trans h0 (le_trans (le_of_eq h1.symm) (Nat.le_succ _))
      · exact le_trans h0 (le_trans (le_of_eq h1.symm) (Nat.le_succ _))

theorem emit_queued (c : Capitan) (sig : Signal) (cc : Bool) (sev : Severity)
    (fs : List Field) (pd : Bool) :
    ∀ e ∈ queuedEvents (c.emit sig cc sev fs pd).1,
      e ∈ queuedEvents c ∨ (c.nextId ≤ e.id ∧ e.ctxCanceled = cc) := by
  have hq := ensureWorker_queued c sig
  have hn := ensureWorker_nextId_le c sig
  simp only [Capitan.emit]
  split_ifs with hns
  · exact fun e he => Or.inl (hq e he)
  · split
    · -- droppedNoWorker: only the pool changed
      intro e he
      unfold queuedEvents at he
      rcases List.mem_append.mp he with hw | hx
      · rw [poolGet_workers] at hw
        exact Or.inl (hq e (List.mem_append.mpr (Or.inl hw)))
      · rw [poolGet_exiting] at hx
        exact Or.inl (hq e (List.mem_append.mpr (Or.inr hx)))
    · rename_i w heq
      split_ifs with h2 h3
      · -- enqueued
        intro e he
        unfold queuedEvents at he
        rcases List.mem_append.mp he with hw | hx
        · rcases List.mem_flatMap.mp hw with ⟨p, hp, hep⟩
          rcases SMap.mem_set hp with hpo | hpe
          · rw [poolGet_workers] at hpo
            exact Or.inl (hq e (List.mem_append.mpr (Or.inl (List.mem_flatMap.mpr ⟨p, hpo, hep⟩))))
          · rw [hpe] at hep
            rcases List.mem_append.mp hep with hold | hnew
            · rw [poolGet_workers] at heq
              exact Or.inl (hq e (List.mem_append.mpr
                (Or.inl (List.mem_flatMap.mpr ⟨(sig, w), SMap.find_mem heq, hold⟩))))
            · simp only [List.mem_singleton] at hnew
              subst hnew
              refine Or.inr ⟨?_, rfl⟩
              rw [poolGet_nextId]
              exact hn
        · rw [poolGet_exiting] at hx
          exact Or.inl (hq e (List.mem_append.mpr (Or.inr hx)))
      · -- droppedOnWait
        intro e he
        unfold queuedEvents at he
        rcases List.mem_append.mp he with hw | hx
        · rw [poolGet_workers] at hw
          exact Or.inl (hq e (List.mem_append.mpr (Or.inl hw)))
        · rw [poolGet_exiting] at hx
          exact Or.inl (hq e (List.mem_append.mpr (Or.inr hx)))
      · -- blocked
        intro e he
        unfold queuedEvents at he
        rcases List.mem_append.mp he with hw | hx
        · rw [poolGet_workers] at hw
          exact Or.inl (hq e (List.mem_append.mpr (Or.inl hw)))
        · rw [poolGet_exiting] at hx
          exact Or.inl (hq e (List.mem_append.mpr (Or.inr hx)))

theorem unregister_nextId (c : Capitan) (l : Listener) :
    (c.unregister l).nextId = c.nextId := by
  simp only [Capitan.unregister]
  split_ifs <;> (try split) <;> rfl

theorem unregister_queued (c : Capitan) (l : Listener) :
    ∀ e ∈ queuedEvents (c.unregister l), e ∈ queuedEvents c := by
  simp only [Capitan.unregister]
  split_ifs with h1 h2 h3 <;> (try split) <;> intro e he <;>
    first
    | exact he
    | · rename_i w heq
        unfold queuedEvents at he ⊢
        rcases List.mem_append.mp he with hw | hx
        · rcases List.mem_flatMap.mp hw with ⟨p, hp, hep⟩
          exact List.mem_append.mpr (Or.inl (List.mem_flatMap.mpr ⟨p, SMap.mem_erase hp, hep⟩))
        · rcases List.mem_flatMap.mp hx with ⟨p, hp, hep⟩
          rcases List.mem_append.mp hp with hpo | hpn
          · exact List.mem_append.mpr (Or.inr (List.mem_flatMap.mpr ⟨p, hpo, hep⟩))
          · simp only [List.mem_singleton] at hpn
            subst hpn
            exact List.mem_append.mpr
              (Or.inl (List.mem_flatMap.mpr ⟨(l.signal, w), SMap.find_mem heq, hep⟩))

theorem foldUnregister_nextId (ls : List Listener) :
    ∀ c : Capitan, (ls.foldl (fun c l => Capitan.unregister c l) c).nextId = c.nextId := by
  induction ls with
  | nil => intro c; rfl
  | cons l rest ih =>
    intro c
    simp only [List.foldl_cons]
    rw [ih, unregister_nextId]

theorem foldUnregister_queued (ls : List Listener) :
    ∀ c : Capitan, ∀ e ∈ queuedEvents (ls.foldl (fun c l => Capitan.unregister c l) c),
      e ∈ queuedEvents c := by
  induction ls with
  | nil => intro c e he; exact he
  | cons l rest ih =>
    intro c e he
    simp only [List.foldl_cons] at he
    exact unregister_queued c l e (ih (c.unregister l) e he)

theorem closeListener_nextId (c : Capitan) (lid : Nat) :
    (c.closeListener lid).nextId = c.nextId := by
  unfold Capitan.closeListener
  cases c.created.find? (fun l => decide (l.id = lid)) with
  | none => rfl
  | some l => exact unregister_nextId c l

theorem closeListener_queued (c : Capitan) (lid : Nat) :
    ∀ e ∈ queuedEvents (c.closeListener lid), e ∈ queuedEvents c := by
  unfold Capitan.closeListener
  cases c.created.find? (fun l => decide (l.id = lid)) with
  | none => exact fun e he => he
  | some l => exact unregister_queued c l

theorem closeObserver_nextId (c : Capitan) (oid : Nat) :
    (c.closeObserver oid).nextId = c.nextId := by
  unfold Capitan.closeObserver
  cases obsFind c.obsHeap oid with
  | none => rfl
  | some obs =>
    simp only
    split
    · rw [foldUnregister_nextId]
    · rfl

theorem closeObserver_queued (c : Capitan) (oid : Nat) :
    ∀ e ∈ queuedEvents (c.closeObserver oid), e ∈ queuedEvents c := by
  unfold Capitan.closeObserver
  cases obsFind c.obsHeap oid with
  | none => exact fun e he => he
  | some obs =>
    simp only
    split
    · intro e he
      have h2 := foldUnregister_queued obs.listeners _ e he
      unfold queuedEvents at h2 ⊢
      exact h2
    · exact fun e he => he

theorem shutdownBus_nextId (env : PanicEnv) (c : Capitan) :
    (c.shutdownBus env).1.nextId = c.nextId := by
  show (Capitan.shutdownBus env c).1.nextId = c.nextId
  unfold Capitan.shutdownBus
  simp only [drainAll_fst]

theorem shutdownBus_snd (env : PanicEnv) (c : Capitan) :
    (c.shutdownBus env).2 =
      c.workers.flatMap
          (fun p => p.2.events.flatMap (eventTrace env c.registry c.panicHandlerSet p.1))
        ++ c.exiting.flatMap
          (fun p => p.2.events.flatMap (eventTrace env c.registry c.panicHandlerSet p.1)) := by
  show (Capitan.shutdownBus env c).2 = _
  unfold Capitan.shutdownBus
  simp only [drainAll_snd, drainAll_fst]

theorem step_no_invoke (env : PanicEnv) (c : Capitan) (op : Op) (eid : Nat)
    (h : eventIdCanceled c eid) :
    eventIdCanceled (c.step env op).1 eid
    ∧ ∀ l s, TraceItem.invoke l s eid ∉ (c.step env op).2 := by
  cases op with
  | hook sig cb =>
    simp only [Capitan.step]
    refine ⟨eventIdCanceled_mono h (hook_nextId_le c sig cb) ?_, by simp⟩
    intro e he
    left
    unfold queuedEvents at he ⊢
    rw [hook_workers, hook_exiting] at he
    exact he
  | observe cb sigs =>
    simp only [Capitan.step]
    refine ⟨eventIdCanceled_mono h (observe_nextId_le c cb sigs) ?_, by simp⟩
    intro e he
    left
    unfold queuedEvents at he ⊢
    rw [observe_workers, observe_exiting] at he
    exact he
  | emit sig cc sev fs pd =>
    simp only [Capitan.step]
    refine ⟨eventIdCanceled_mono h (emit_nextId_le c sig cc sev fs pd) ?_, by simp⟩
    intro e he
    rcases emit_queued c sig cc sev fs pd e he with h2 | h2
    · exact Or.inl h2
    · exact Or.inr (fun hc => Nat.lt_irrefl _ (lt_of_lt_of_le h.1 (hc ▸ h2.1)))
  | closeListener lid =>
    simp only [Capitan.step]
    refine ⟨eventIdCanceled_mono h (le_of_eq (closeListener_nextId c lid).symm) ?_, by simp⟩
    exact fun e he => Or.inl (closeListener_queued c lid e he)
  | closeObserver oid =>
    simp only [Capitan.step]
    refine ⟨eventIdCanceled_mono h (le_of_eq (closeObserver_nextId c oid).symm) ?_, by simp⟩
    exact fun e he => Or.inl (closeObserver_queued c oid e he)
  | workerDeq sig =>
    simp only [Capitan.step]
    unfold Capitan.workerDeq
    cases hf : SMap.find c.workers sig with
    | none => exact ⟨h, by simp⟩
    | some w =>
      dsimp only
      cases hev : w.events with
      | nil => exact ⟨h, by simp⟩
      | cons e rest =>
        dsimp only
        have hew : e ∈ queuedEvents c := by
          unfold queuedEvents
          exact List.mem_append.mpr (Or.inl (List.mem_flatMap.mpr
            ⟨(sig, w), SMap.find_mem hf, by rw [hev]; exact List.mem_cons_self _ _⟩))
        constructor
        · rw [processEvent_fst]
          refine eventIdCanceled_mono h (le_refl _) ?_
          intro e' he'
          left
          unfold queuedEvents at he' ⊢
          rcases List.mem_append.mp he' with hw | hx
          · rcases List.mem_flatMap.mp hw with ⟨p, hp, hep⟩
            rcases SMap.mem_set hp with hpo | hpe
            · exact List.mem_append.mpr (Or.inl (List.mem_flatMap.mpr ⟨p, hpo, hep⟩))
            · rw [hpe] at hep
              refine List.mem_append.mpr (Or.inl (List.mem_flatMap.mpr
                ⟨(sig, w), SMap.find_mem hf, ?_⟩))
              rw [hev]
              exact List.mem_cons_of_mem _ hep
          · exact List.mem_append.mpr (Or.inr hx)
        · rw [processEvent_snd]
          exact fun l s => eventTrace_no_invoke env _ _ sig e eid (h.2 e hew) l s
  | workerStop sig =>
    simp only [Capitan.step]
    unfold Capitan.workerStop
    cases hf : SMap.find c.workers sig with
    | none => exact ⟨h, by simp⟩
    | some w =>
      dsimp only
      split_ifs with hs
      · have hqw : ∀ e ∈ w.events, e ∈ queuedEvents c := by
          intro e he
          unfold queuedEvents
          exact List.mem_append.mpr (Or.inl (List.mem_flatMap.mpr
            ⟨(sig, w), SMap.find_mem hf, he⟩))
        constructor
        · rw [drainEvents_fst]
          refine eventIdCanceled_mono h (le_refl _) ?_
          intro e' he'
          left
          unfold queuedEvents at he' ⊢
          rcases List.mem_append.mp he' with hw | hx
          · rcases List.mem_flatMap.mp hw with ⟨p, hp, hep⟩
            exact List.mem_append.mpr (Or.inl (List.mem_flatMap.mpr
              ⟨p, SMap.mem_erase hp, hep⟩))
          · exact List.mem_append.mpr (Or.inr hx)
        · rw [drainEvents_snd]
          intro l s hmem
          rcases List.mem_flatMap.mp hmem with ⟨e, hew, hx⟩
          exact eventTrace_no_invoke env _ _ sig e eid (h.2 e (hqw e hew)) l s hx
      · exact ⟨h, by simp⟩
  | exitDrain sig =>
    simp only [Capitan.step]
    unfold Capitan.exitDrain
    cases hf : SMap.find c.exiting sig with
    | none => exact ⟨h, by simp⟩
    | some w =>
      dsimp only
      have hqw : ∀ e ∈ w.events, e ∈ queuedEvents c := by
        intro e he
        unfold queuedEvents
        exact List.mem_append.mpr (Or.inr (List.mem_flatMap.mpr
          ⟨(sig, w), SMap.find_mem hf, he⟩))
      constructor
      · rw [drainEvents_fst]
        refine eventIdCanceled_mono h (le_refl _) ?_
        intro e' he'
        left
        unfold queuedEvents at he' ⊢
        rcases List.mem_append.mp he' with hw | hx
        · exact List.mem_append.mpr (Or.inl hw)
        · rcases List.mem_flatMap.mp hx with ⟨p, hp, hep⟩
          exact List.mem_append.mpr (Or.inr (List.mem_flatMap.mpr
            ⟨p, SMap.mem_erase hp, hep⟩))
      · rw [drainEvents_snd]
        intro l s hmem
        rcases List.mem_flatMap.mp hmem with ⟨e, hew, hx⟩
        exact eventTrace_no_invoke env _ _ sig e eid (h.2 e (hqw e hew)) l s hx
  | shutdown =>
    simp only [Capitan.step]
    constructor
    · refine ⟨lt_of_lt_of_le h.1 (le_of_eq (shutdownBus_nextId env c).symm), ?_⟩
      intro e he
      have hnil : queuedEvents (c.shutdownBus env).1 = [] := by
        unfold queuedEvents
        rw [show (c.shutdownBus env).1.workers = [] from rfl,
          show (c.shutdownBus env).1.exiting = [] from rfl]
        rfl
      rw [hnil] at he
      simp at he
    · rw [shutdownBus_snd]
      intro l s hmem
      rcases List.mem_append.mp hmem with hm | hm
      · rcases List.mem_flatMap.mp hm with ⟨p, hp, hx⟩
        rcases List.mem_flatMap.mp hx with ⟨e, hep, hx2⟩
        have hq : e ∈ queuedEvents c := by
          unfold queuedEvents
          exact List.mem_append.mpr (Or.inl (List.mem_flatMap.mpr ⟨p, hp, hep⟩))
        exact eventTrace_no_invoke env _ _ p.1 e eid (h.2 e hq) l s hx2
      · rcases List.mem_flatMap.mp hm with ⟨p, hp, hx⟩
        rcases List.mem_flatMap.mp hx with ⟨e, hep, hx2⟩
        have hq : e ∈ queuedEvents c := by
          unfold queuedEvents
          exact List.mem_append.mpr (Or.inr (List.mem_flatMap.mpr ⟨p, hp, hep⟩))
        exact eventTrace_no_invoke env _ _ p.1 e eid (h.2 e hq) l s hx2

theorem run_no_invoke (env : PanicEnv) (ops : List Op) :
    ∀ (c : Capitan) (eid : Nat), eventIdCanceled c eid →
      eventIdCanceled (Capitan.run env c ops).1 eid
      ∧ ∀ l s, TraceItem.invoke l s eid ∉ (Capitan.run env c ops).2 := by
  induction ops with
  | nil => exact fun c eid h => ⟨h, by simp [Capitan.run]⟩
  | cons op rest ih =>
    intro c eid h
    have h1 := step_no_invoke env c op eid h
    have h2 := ih (c.step env op).1 eid h1.1
    refine ⟨h2.1, ?_⟩
    intro l s hmem
    simp only [Capitan.run] at hmem
    rcases List.mem_append.mp hmem with hm | hm
    · exact h1.2 l s hm
    · exact h2.2 l s hm

theorem poolGet_queued (c : Capitan) : queuedEvents (poolGet c).2 = queuedEvents c := by
  unfold queuedEvents
  rw [poolGet_workers, poolGet_exiting]

theorem emit_canceled_start (c : Capitan) (sig : Signal) (sev : Severity) (fs : List Field)
    (pd : Bool) (hf : queueIdsFresh c) :
    (c.emit sig true sev fs pd).2 ≠ EmitOutcome.blocked
    ∧ ((c.emit sig true sev fs pd).2 ≠ EmitOutcome.noListeners →
        eventIdCanceled (c.emit sig true sev fs pd).1 ((c.ensureWorker sig).1.nextId)) := by
  have hqsub := ensureWorker_queued c sig
  have hnle := ensureWorker_nextId_le c sig
  have hold : ∀ e ∈ queuedEvents (poolGet (c.ensureWorker sig).1).2,
      e.id = (c.ensureWorker sig).1.nextId → e.ctxCanceled = true := by
    intro e he heid
    rw [poolGet_queued] at he
    have hlt : e.id < c.nextId := hf e (hqsub e he)
    exact absurd heid (by
      intro hc
      exact Nat.lt_irrefl _ (lt_of_lt_of_le hlt (hc ▸ hnle)))
  simp only [Capitan.emit]
  split_ifs with hns
  · exact ⟨by simp, fun hno => absurd rfl hno⟩
  · split
    · -- droppedNoWorker
      refine ⟨by simp, fun _ => ⟨by rw [poolGet_nextId]; exact Nat.lt_succ_self _, ?_⟩⟩
      intro e he heid
      exact hold e he heid
    · rename_i w heq
      split_ifs with h2 h3
      · -- enqueued with a canceled context
        refine ⟨by simp, fun _ => ⟨by rw [poolGet_nextId]; exact Nat.lt_succ_self _, ?_⟩⟩
        intro e he heid
        unfold queuedEvents at he
        rcases List.mem_append.mp he with hw | hx
        · rcases List.mem_flatMap.mp hw with ⟨p, hp, hep⟩
          rcases SMap.mem_set hp with hpo | hpe
          · refine hold e ?_ heid
            unfold queuedEvents
            exact List.mem_append.mpr (Or.inl (List.mem_flatMap.mpr ⟨p, hpo, hep⟩))
          · rw [hpe] at hep
            rcases List.mem_append.mp hep with ho | hn
            · refine hold e ?_ heid
              unfold queuedEvents
              exact List.mem_append.mpr (Or.inl (List.mem_flatMap.mpr
                ⟨(sig, w), SMap.find_mem heq, ho⟩))
            · simp only [List.mem_singleton] at hn
              rw [hn]
              rfl
        · refine hold e ?_ heid
          unfold queuedEvents
          exact List.mem_append.mpr (Or.inr hx)
      · -- droppedOnWait
        refine ⟨by simp, fun _ => ⟨by rw [poolGet_nextId]; exact Nat.lt_succ_self _, ?_⟩⟩
        intro e he heid
        exact hold e he heid
      · -- the blocked branch is unreachable: the canceled context is a ready branch
        exact absurd (Or.inl trivial) h3

/-- C3: an `Emit` whose supplied context is already canceled never delivers
its event to any listener: the enqueue wait never blocks (the canceled
context always ends the select — the event is dropped, or enqueued carrying
its canceled context), and no later step of any run — worker dequeue,
drain, or shutdown — produces an invocation for that emission, because the
worker observes the canceled context at dequeue time and discards the event
without fan-out. -/
theorem canceled_never_delivered (env : PanicEnv) (c : Capitan) (sig : Signal)
    (sev : Severity) (fs : List Field) (pd : Bool) (ops : List Op)
    (hf : queueIdsFresh c) :
    (c.emit sig true sev fs pd).2 ≠ EmitOutcome.blocked
    ∧ ((c.emit sig true sev fs pd).2 ≠ EmitOutcome.noListeners →
        ∀ l s, TraceItem.invoke l s ((c.ensureWorker sig).1.nextId) ∉
          (Capitan.run env (c.emit sig true sev fs pd).1 ops).2) := by
  have hcs := emit_canceled_start c sig sev fs pd hf
  exact ⟨hcs.1, fun hno => (run_no_invoke env ops _ _ (hcs.2 hno)).2⟩

/-- Witness for C3 at a concrete input: a hooked signal, an emit with a
canceled context (which gets enqueued), then a worker dequeue step — no
invocation of that emission appears. -/
theorem canceled_never_delivered_witness :
    TraceItem.invoke { id := 0, signal := "s", cb := 0, owner := none } "s"
        ((((Capitan.new 16 false).hook "s" 0).1.ensureWorker "s").1.nextId) ∉
      (Capitan.run (fun _ => none)
        (((Capitan.new 16 false).hook "s" 0).1.emit "s" true SeverityInfo [] false).1
        [Op.workerDeq "s"]).2 :=
  (canceled_never_delivered (fun _ => none) ((Capitan.new 16 false).hook "s" 0).1 "s"
      SeverityInfo [] false [Op.workerDeq "s"] (by decide)).2 (by decide)
    { id := 0, signal := "s", cb := 0, owner := none } "s"

/-! ### Registry entries created by Emit persist (C10) -/

theorem SMap.find_of_regGet_some {m : List (Signal × List Listener)} {k : Signal}
    (hsome : (SMap.find m k).isSome = true) :
    SMap.find m k = some (regGet m k) := by
  unfold regGet
  cases hf : SMap.find m k with
  | none => rw [hf] at hsome; simp at hsome
  | some v => rfl

theorem attachOne_find_isSome (c : Capitan) (sig : Signal) (oid : Nat) (s : Signal)
    (h : (SMap.find c.registry s).isSome = true) :
    (SMap.find (attachOne c sig oid).registry s).isSome = true := by
  unfold attachOne
  cases obsFind c.obsHeap oid with
  | none => exact h
  | some obs =>
    simp only
    split
    · rw [SMap.find_set]
      by_cases hs : s = sig
      · simp [hs]
      · simp only [if_neg hs]
        exact h
    · exact h

theorem attachObservers_find_isSome (c : Capitan) (sig : Signal) (s : Signal)
    (h : (SMap.find c.registry s).isSome = true) :
    (SMap.find (c.attachObservers sig).registry s).isSome = true := by
  unfold Capitan.attachObservers
  induction c.observers generalizing c with
  | nil => exact h
  | cons oid rest ih =>
    simp only [List.foldl_cons]
    exact ih (attachOne c sig oid) (attachOne_find_isSome c sig oid s h)

theorem set_find_isSome {β : Type} (m : List (Signal × β)) (k : Signal) (v : β) (s : Signal)
    (h : (SMap.find m s).isSome = true) :
    (SMap.find (SMap.set m k v) s).isSome = true := by
  rw [SMap.find_set]
  by_cases hs : s = k
  · simp [hs]
  · simp only [if_neg hs]
    exact h

theorem observeFold_find_isSome (cb oid : Nat) (keys : List Signal) (s : Signal) :
    ∀ acc : Capitan × Observer, (SMap.find acc.1.registry s).isSome = true →
      (SMap.find (keys.foldl (observeStep cb oid) acc).1.registry s).isSome = true := by
  induction keys with
  | nil => exact fun acc h => h
  | cons k rest ih =>
    intro acc h
    simp only [List.foldl_cons]
    refine ih _ ?_
    unfold observeStep
    split
    · exact set_find_isSome _ _ _ _ h
    · exact h

theorem ensureWorker_find_isSome (c : Capitan) (sig : Signal) (s : Signal)
    (h : (SMap.find c.registry s).isSome = true) :
    (SMap.find (c.ensureWorker sig).1.registry s).isSome = true := by
  simp only [Capitan.ensureWorker]
  split_ifs with h1 h2 h3 h4
  · exact h
  · exact h
  · exact attachObservers_find_isSome _ sig s (set_find_isSome _ _ _ _ h)
  · exact attachObservers_find_isSome _ sig s (set_find_isSome _ _ _ _ h)
  · exact h

theorem emit_find_isSome (c : Capitan) (sig : Signal) (cc : Bool) (sev : Severity)
    (fs : List Field) (pd : Bool) (s : Signal)
    (h : (SMap.find c.registry s).isSome = true) :
    (SMap.find (c.emit sig cc sev fs pd).1.registry s).isSome = true := by
  have he := ensureWorker_find_isSome c sig s h
  have he2 : (SMap.find (poolGet (c.ensureWorker sig).1).2.registry s).isSome = true := by
    rw [poolGet_registry]
    exact he
  simp only [Capitan.emit]
  split_ifs with hns
  · exact he
  · split
    · exact he2
    · rename_i w heq
      split_ifs with h2 h3
      · exact he2
      · exact he2
      · exact he2

theorem hook_find_isSome (c : Capitan) (sig : Signal) (cb : Nat) (s : Signal)
    (h : (SMap.find c.registry s).isSome = true) :
    (SMap.find (c.hook sig cb).1.registry s).isSome = true := by
  simp only [Capitan.hook]
  split
  · exact set_find_isSome _ _ _ _ h
  · exact attachObservers_find_isSome _ sig s (set_find_isSome _ _ _ _ h)

theorem observe_find_isSome (c : Capitan) (cb : Nat) (sigs : List Signal) (s : Signal)
    (h : (SMap.find c.registry s).isSome = true) :
    (SMap.find (c.observe cb sigs).1.registry s).isSome = true := by
  simp only [Capitan.observe]
  exact observeFold_find_isSome cb c.nextId _ s _ h

/-- The operations that can delete a registry entry: only the two `Close`
paths (via `unregister`). -/
def Op.isClose : Op → Bool
  | .closeListener _ => true
  | .closeObserver _ => true
  | _ => false

theorem workerStop_registry (env : PanicEnv) (c : Capitan) (sig : Signal) :
    (c.workerStop env sig).1.registry = c.registry := by
  unfold Capitan.workerStop
  cases SMap.find c.workers sig with
  | none => rfl
  | some w =>
    dsimp only
    split_ifs with hs
    · rw [drainEvents_fst]
    · rfl

theorem exitDrain_registry (env : PanicEnv) (c : Capitan) (sig : Signal) :
    (c.exitDrain env sig).1.registry = c.registry := by
  unfold Capitan.exitDrain
  cases SMap.find c.exiting sig with
  | none => rfl
  | some w =>
    dsimp only
    rw [drainEvents_fst]

theorem workerDeq_registry (env : PanicEnv) (c : Capitan) (sig : Signal) :
    (c.workerDeq env sig).1.registry = c.registry := by
  unfold Capitan.workerDeq
  cases SMap.find c.workers sig with
  | none => rfl
  | some w =>
    dsimp only
    cases w.events with
    | nil => rfl
    | cons e rest => rw [processEvent_fst]; rfl

theorem shutdownBus_registry (env : PanicEnv) (c : Capitan) :
    (c.shutdownBus env).1.registry = c.registry := by
  show (Capitan.shutdownBus env c).1.registry = c.registry
  unfold Capitan.shutdownBus
  simp only [drainAll_fst]

theorem step_keeps_regKey (env : PanicEnv) (c : Capitan) (op : Op) (s : Signal)
    (hop : op.isClose = false) (h : (SMap.find c.registry s).isSome = true) :
    (SMap.find (c.step env op).1.registry s).isSome = true := by
  cases op with
  | hook sig cb => simpa [Capitan.step] using hook_find_isSome c sig cb s h
  | observe cb sigs => simpa [Capitan.step] using observe_find_isSome c cb sigs s h
  | emit sig cc sev fs pd => simpa [Capitan.step] using emit_find_isSome c sig cc sev fs pd s h
  | closeListener lid => simp [Op.isClose] at hop
  | closeObserver oid => simp [Op.isClose] at hop
  | workerDeq sig => simpa [Capitan.step, workerDeq_registry] using h
  | workerStop sig => simpa [Capitan.step, workerStop_registry] using h
  | exitDrain sig => simpa [Capitan.step, exitDrain_registry] using h
  | shutdown => simpa [Capitan.step, shutdownBus_registry] using h

theorem run_keeps_regKey (env : PanicEnv) (ops : List Op) :
    ∀ c : Capitan, ∀ s : Signal, (∀ op ∈ ops, op.isClose = false) →
      (SMap.find c.registry s).isSome = true →
      (SMap.find (Capitan.run env c ops).1.registry s).isSome = true := by
  induction ops with
  | nil => exact fun c s _ h => h
  | cons op rest ih =>
    intro c s hops h
    simp only [Capitan.run]
    exact ih _ s (fun o ho => hops o (List.mem_cons_of_mem _ ho))
      (step_keeps_regKey env c op s (hops op (List.mem_cons_self _ _)) h)

theorem ensureWorker_false_unseen (c : Capitan) (sig : Signal)
    (hnew : SMap.find c.registry sig = none) (hno : (c.ensureWorker sig).2 = false) :
    SMap.find (c.ensureWorker sig).1.registry sig = some [] := by
  simp only [Capitan.ensureWorker] at hno ⊢
  split_ifs at hno ⊢ with h1 h2 h3 h4
  · rw [hnew] at h3; simp at h3
  · have hp : (SMap.find
        ((Capitan.attachObservers { c with registry := SMap.set c.registry sig [] } sig)).registry
          sig).isSome = true := by
      refine attachObservers_find_isSome _ sig sig ?_
      show (SMap.find (SMap.set c.registry sig []) sig).isSome = true
      rw [SMap.find_set]
      simp
    have hval := SMap.find_of_regGet_some hp
    rw [hval]
    rw [List.length_eq_zero] at h4
    rw [h4]

theorem hook_existing (c : Capitan) (sig : Signal) (cb : Nat)
    (h : (SMap.find c.registry sig).isSome = true) :
    (c.hook sig cb).1.obsHeap = c.obsHeap
    ∧ (c.hook sig cb).1.observers = c.observers
    ∧ regGet (c.hook sig cb).1.registry sig =
        regGet c.registry sig ++ [(c.hook sig cb).2] := by
  simp only [Capitan.hook, h, if_pos]
  refine ⟨trivial, trivial, ?_⟩
  rw [regGet_set]
  simp

theorem observeFold_regGet_not_mem (cb oid : Nat) (keys : List Signal) (s : Signal)
    (hs : s ∉ keys) :
    ∀ acc : Capitan × Observer,
      regGet (keys.foldl (observeStep cb oid) acc).1.registry s = regGet acc.1.registry s := by
  induction keys with
  | nil => intro acc; rfl
  | cons k rest ih =>
    intro acc
    have hsk : s ≠ k := fun hc => hs (hc ▸ List.mem_cons_self _ _)
    have hsr : s ∉ rest := fun hc => hs (List.mem_cons_of_mem _ hc)
    simp only [List.foldl_cons]
    rw [ih hsr]
    unfold observeStep
    split
    · rw [regGet_set, if_neg hsk]
    · rfl

theorem observeFold_signals (cb oid : Nat) (keys : List Signal) :
    ∀ acc : Capitan × Observer,
      (keys.foldl (observeStep cb oid) acc).2.signals = acc.2.signals := by
  induction keys with
  | nil => intro acc; rfl
  | cons k rest ih =>
    intro acc
    simp only [List.foldl_cons]
    rw [ih]
    unfold observeStep
    split <;> rfl

theorem observeFold_listeners_mono (cb oid : Nat) (keys : List Signal) :
    ∀ (acc : Capitan × Observer) (l : Listener), l ∈ acc.2.listeners →
      l ∈ (keys.foldl (observeStep cb oid) acc).2.listeners := by
  induction keys with
  | nil => exact fun acc l h => h
  | cons k rest ih =>
    intro acc l h
    simp only [List.foldl_cons]
    refine ih _ l ?_
    unfold observeStep
    split
    · exact List.mem_append.mpr (Or.inl h)
    · exact h

theorem observeFold_obsHeap (cb oid : Nat) (keys : List Signal) :
    ∀ acc : Capitan × Observer,
      (keys.foldl (observeStep cb oid) acc).1.obsHeap = acc.1.obsHeap := by
  induction keys with
  | nil => intro acc; rfl
  | cons k rest ih =>
    intro acc
    simp only [List.foldl_cons]
    rw [ih]
    unfold observeStep
    split <;> rfl

theorem observeFold_obsId (cb oid : Nat) (keys : List Signal) :
    ∀ acc : Capitan × Observer,
      (keys.foldl (observeStep cb oid) acc).2.id = acc.2.id := by
  induction keys with
  | nil => intro acc; rfl
  | cons k rest ih =>
    intro acc
    simp only [List.foldl_cons]
    rw [ih]
    unfold observeStep
    split <;> rfl

theorem obsFind_append_none (hs : List Observer) (o : Observer)
    (h : obsFind hs o.id = none) : obsFind (hs ++ [o]) o.id = some o := by
  induction hs with
  | nil => simp [obsFind]
  | cons q rest ih =>
    by_cases hq : q.id = o.id
    · rw [obsFind, if_pos hq] at h
      simp at h
    · rw [obsFind, if_neg hq] at h
      rw [List.cons_append, obsFind, if_neg hq]
      exact ih h

theorem observe_scans (c : Capitan) (cb : Nat) (sigs : List Signal) (sig : Signal)
    (ls : List Listener)
    (hfind : SMap.find c.registry sig = some ls)
    (hnd : (c.registry.map Prod.fst).Nodup)
    (hmatch : obsMatches (if sigs = [] then none else some sigs) sig = true)
    (hfresh : obsFind c.obsHeap c.nextId = none) :
    ∃ l : Listener, l.cb = cb ∧ l.owner = some c.nextId
      ∧ regGet (c.observe cb sigs).1.registry sig = ls ++ [l]
      ∧ ∃ o : Observer, obsFind (c.observe cb sigs).1.obsHeap c.nextId = some o
          ∧ l ∈ o.listeners := by
  have hmem : sig ∈ c.registry.map Prod.fst :=
    List.mem_map.mpr ⟨(sig, ls), SMap.find_mem hfind, rfl⟩
  rcases List.append_of_mem hmem with ⟨k1, k2, hk⟩
  have hnd2 := hk ▸ hnd
  have hs1 : sig ∉ k1 := by
    intro hc
    have := List.disjoint_of_nodup_append hnd2
    exact this hc (List.mem_cons_self _ _)
  have hs2 : sig ∉ k2 := by
    have := (List.nodup_append.mp hnd2).2.1
    exact (List.nodup_cons.mp this).1
  simp only [Capitan.observe, hk]
  rw [List.foldl_append, List.foldl_cons]
  set init : Capitan × Observer :=
    ({ c with nextId := c.nextId + 1 },
     { id := c.nextId, listeners := [], cb := cb, active := true,
       signals := if sigs = [] then none else some sigs }) with hinit
  set acc1 := k1.foldl (observeStep cb c.nextId) init with hacc1
  have hsig1 : acc1.2.signals = (if sigs = [] then none else some sigs) := by
    rw [hacc1, observeFold_signals, hinit]
  have hreg1 : regGet acc1.1.registry sig = ls := by
    rw [hacc1, observeFold_regGet_not_mem cb c.nextId k1 sig hs1, hinit]
    show regGet c.registry sig = ls
    unfold regGet
    rw [hfind]
    rfl
  have hstep : observeStep cb c.nextId acc1 sig =
      ({ acc1.1 with
           registry := SMap.set acc1.1.registry sig (regGet acc1.1.registry sig ++
             [{ id := acc1.1.nextId, signal := sig, cb := cb, owner := some c.nextId }]),
           created := acc1.1.created ++
             [{ id := acc1.1.nextId, signal := sig, cb := cb, owner := some c.nextId }],
           nextId := acc1.1.nextId + 1 },
       { acc1.2 with listeners := acc1.2.listeners ++
           [{ id := acc1.1.nextId, signal := sig, cb := cb, owner := some c.nextId }] }) := by
    unfold observeStep
    rw [if_pos (by rw [hsig1]; exact hmatch)]
  refine ⟨{ id := acc1.1.nextId, signal := sig, cb := cb, owner := some c.nextId },
    rfl, rfl, ?_, ?_⟩
  · rw [observeFold_regGet_not_mem cb c.nextId k2 sig hs2, hstep]
    show regGet (SMap.set acc1.1.registry sig (regGet acc1.1.registry sig ++ _)) sig = _
    rw [regGet_set, if_pos rfl, hreg1]
  · set res := k2.foldl (observeStep cb c.nextId) (observeStep cb c.nextId acc1 sig) with hres
    have hid : res.2.id = c.nextId := by
      rw [hres, observeFold_obsId, hstep]
      show acc1.2.id = c.nextId
      rw [hacc1, observeFold_obsId, hinit]
    have hheap : res.1.obsHeap = c.obsHeap := by
      rw [hres, observeFold_obsHeap, hstep]
      show acc1.1.obsHeap = c.obsHeap
      rw [hacc1, observeFold_obsHeap, hinit]
    refine ⟨res.2, ?_, ?_⟩
    · show obsFind (res.1.obsHeap ++ [res.2]) c.nextId = some res.2
      rw [hheap]
      have := obsFind_append_none c.obsHeap res.2 (by rw [hid]; exact hfresh)
      rw [hid] at this
      exact this
    · rw [hres]
      refine observeFold_listeners_mono cb c.nextId k2 _ _ ?_
      rw [hstep]
      exact List.mem_append.mpr (Or.inr (List.mem_singleton.mpr rfl))

/-- C10: an `Emit` to a previously-unseen signal that ends with zero
listeners (no hooks, no matching observer) leaves the registry with an
entry for that signal holding an empty listener slice, creates no worker,
and the entry survives any further run of non-Close operations; because the
entry now exists, a later first `Hook` for the signal does not re-run
observer attachment — it leaves the observer heap and the bus's observer
list untouched and only appends its own listener — while an `Observe`
issued while the entry exists attaches to the signal through its own scan
of existing registry entries. -/
theorem emit_empty_entry_persists (env : PanicEnv) (c c2 c3 : Capitan) (sig : Signal)
    (cc : Bool) (sev : Severity) (fs : List Field) (pd : Bool) (cb cb2 : Nat)
    (sigs : List Signal) (ls : List Listener) (ops : List Op)
    (hnew : SMap.find c.registry sig = none)
    (hno : (c.ensureWorker sig).2 = false)
    (hops : ∀ op ∈ ops, op.isClose = false)
    (hsome : (SMap.find c2.registry sig).isSome = true)
    (hfind : SMap.find c3.registry sig = some ls)
    (hnd : (c3.registry.map Prod.fst).Nodup)
    (hmatch : obsMatches (if sigs = [] then none else some sigs) sig = true)
    (hfresh : obsFind c3.obsHeap c3.nextId = none) :
    (SMap.find (c.emit sig cc sev fs pd).1.registry sig = some []
      ∧ (c.emit sig cc sev fs pd).1.workers = c.workers)
    ∧ (SMap.find (Capitan.run env (c.emit sig cc sev fs pd).1 ops).1.registry sig).isSome = true
    ∧ ((c2.hook sig cb).1.obsHeap = c2.obsHeap
        ∧ (c2.hook sig cb).1.observers = c2.observers
        ∧ regGet (c2.hook sig cb).1.registry sig =
            regGet c2.registry sig ++ [(c2.hook sig cb).2])
    ∧ (∃ l : Listener, l.cb = cb2 ∧ l.owner = some c3.nextId
        ∧ regGet (c3.observe cb2 sigs).1.registry sig = ls ++ [l]
        ∧ ∃ o : Observer, obsFind (c3.observe cb2 sigs).1.obsHeap c3.nextId = some o
            ∧ l ∈ o.listeners) := by
  have hA : (c.emit sig cc sev fs pd).1 = (c.ensureWorker sig).1 := by
    simp [Capitan.emit, hno]
  have hAfind : SMap.find (c.emit sig cc sev fs pd).1.registry sig = some [] := by
    rw [hA]
    exact ensureWorker_false_unseen c sig hnew hno
  refine ⟨⟨hAfind, ?_⟩, ?_, hook_existing c2 sig cb hsome,
    observe_scans c3 cb2 sigs sig ls hfind hnd hmatch hfresh⟩
  · rw [hA]
    exact ensureWorker_false_workers c sig hno
  · exact run_keeps_regKey env ops _ sig hops (by rw [hAfind]; rfl)

/-- Witness for C10 at a concrete input: a fresh bus, an emit to the unseen
signal "s", then an `Observe` whose whitelist holds "s" attaches to the
empty entry through its scan. -/
theorem emit_empty_entry_persists_witness :
    ∃ l : Listener, l.cb = 3
        ∧ l.owner = some ((Capitan.new 16 false).emit "s" false SeverityInfo [] false).1.nextId
      ∧ regGet ((((Capitan.new 16 false).emit "s" false SeverityInfo [] false).1.observe
          3 ["s"]).1.registry) "s" = [] ++ [l]
      ∧ ∃ o : Observer,
          obsFind ((((Capitan.new 16 false).emit "s" false SeverityInfo [] false).1.observe
              3 ["s"]).1.obsHeap)
            ((Capitan.new 16 false).emit "s" false SeverityInfo [] false).1.nextId = some o
          ∧ l ∈ o.listeners :=
  (emit_empty_entry_persists (fun _ => none)
      (Capitan.new 16 false)
      ((Capitan.new 16 false).emit "s" false SeverityInfo [] false).1
      ((Capitan.new 16 false).emit "s" false SeverityInfo [] false).1
      "s" false SeverityInfo [] false 2 3 ["s"] [] []
      (by decide) (by decide) (by intro op hop; simp at hop)
      (by decide) (by decide) (by decide) (by decide) (by decide)).2.2.2

/-! ### Observer attachment and whitelist filtering (C6) -/

theorem obsFind_id {hs : List Observer} {oid : Nat} {obs : Observer}
    (h : obsFind hs oid = some obs) : obs.id = oid := by
  induction hs with
  | nil => simp [obsFind] at h
  | cons q rest ih =>
    by_cases hq : q.id = oid
    · rw [obsFind, if_pos hq] at h
      cases h
      exact hq
    · rw [obsFind, if_neg hq] at h
      exact ih h

theorem obsFind_append_left {hs : List Observer} {oid : Nat} {obs : Observer}
    (h : obsFind hs oid = some obs) (hs2 : List Observer) :
    obsFind (hs ++ hs2) oid = some obs := by
  induction hs with
  | nil => simp [obsFind] at h
  | cons q rest ih =>
    by_cases hq : q.id = oid
    · rw [obsFind, if_pos hq] at h
      rw [List.cons_append, obsFind, if_pos hq]
      exact h
    · rw [obsFind, if_neg hq] at h
      rw [List.cons_append, obsFind, if_neg hq]
      exact ih h

theorem obsUpdate_find_ne {hs : List Observer} {oid : Nat} (o : Observer)
    (hne : o.id ≠ oid) : obsFind (obsUpdate hs o) oid = obsFind hs oid := by
  induction hs with
  | nil => rfl
  | cons q rest ih =>
    unfold obsUpdate at ih ⊢
    by_cases hq : q.id = o.id
    · have hqo : ¬ q.id = oid := by rw [hq]; exact hne
      simp only [List.map_cons, if_pos hq, obsFind, if_neg hne, if_neg hqo]
      exact ih
    · simp only [List.map_cons, if_neg hq, obsFind]
      by_cases hqoid : q.id = oid
      · rw [if_pos hqoid, if_pos hqoid]
      · rw [if_neg hqoid, if_neg hqoid]
        exact ih

theorem obsUpdate_find_eq {hs : List Observer} {oid : Nat} {q : Observer} (o : Observer)
    (hfound : obsFind hs oid = some q) (ho : o.id = oid) :
    obsFind (obsUpdate hs o) oid = some o := by
  induction hs with
  | nil => simp [obsFind] at hfound
  | cons p rest ih =>
    unfold obsUpdate at ih ⊢
    by_cases hp : p.id = oid
    · have hpo : p.id = o.id := by rw [hp, ho]
      simp only [List.map_cons, if_pos hpo, obsFind, if_pos ho]
    · rw [obsFind, if_neg hp] at hfound
      by_cases hpo : p.id = o.id
      · simp only [List.map_cons, if_pos hpo, obsFind, if_pos ho]
      · simp only [List.map_cons, if_neg hpo, obsFind, if_neg hp]
        exact ih hfound

theorem mem_swapRemoveP {α : Type} {xs : List α} {p : α → Bool} {x : α}
    (hx : x ∈ swapRemoveP xs p) : x ∈ xs := by
  unfold swapRemoveP at hx
  split at hx
  · exact hx
  · split at hx
    · exact hx
    · rename_i i hi last hlast
      have h1 := List.dropLast_subset _ hx
      rcases List.mem_or_eq_of_mem_set h1 with h2 | h2
      · exact h2
      · rw [h2]
        have hmem : last ∈ xs.getLast? := by rw [hlast]; rfl
        rcases List.mem_getLast?_eq_getLast hmem with ⟨hne, heq⟩
        rw [heq]
        exact List.getLast_mem hne

theorem regGet_mem {m : List (Signal × List Listener)} {k : Signal} {l : Listener}
    (h : l ∈ regGet m k) : (k, regGet m k) ∈ m := by
  unfold regGet at h ⊢
  cases hf : SMap.find m k with
  | none => rw [hf] at h; simp at h
  | some ls =>
    exact SMap.find_mem hf

theorem attachOne_find_ne (c : Capitan) (sig : Signal) (o oid : Nat) (ho : o ≠ oid) :
    obsFind (attachOne c sig o).obsHeap oid = obsFind c.obsHeap oid := by
  unfold attachOne
  cases hfo : obsFind c.obsHeap o with
  | none => rfl
  | some obs2 =>
    simp only
    split
    · refine obsUpdate_find_ne _ ?_
      show obs2.id ≠ oid
      rw [obsFind_id hfo]
      exact ho
    · rfl

theorem attachFold_find_ne (sig : Signal) (os : List Nat) (oid : Nat) (hno : oid ∉ os) :
    ∀ c : Capitan,
      obsFind ((os.foldl (fun c o => attachOne c sig o) c)).obsHeap oid =
        obsFind c.obsHeap oid := by
  induction os with
  | nil => intro c; rfl
  | cons o rest ih =>
    intro c
    have ho : o ≠ oid := fun hc => hno (hc ▸ List.mem_cons_self _ _)
    have hnr : oid ∉ rest := fun hc => hno (List.mem_cons_of_mem _ hc)
    simp only [List.foldl_cons]
    rw [ih hnr, attachOne_find_ne c sig o oid ho]

theorem attachOne_regGet_mono (c : Capitan) (sig : Signal) (o : Nat) {l : Listener}
    (hl : l ∈ regGet c.registry sig) : l ∈ regGet (attachOne c sig o).registry sig := by
  unfold attachOne
  cases hfo : obsFind c.obsHeap o with
  | none => exact hl
  | some obs2 =>
    simp only
    split
    · show l ∈ regGet (SMap.set c.registry sig _) sig
      rw [regGet_set, if_pos rfl]
      exact List.mem_append.mpr (Or.inl hl)
    · exact hl

theorem attachFold_regGet_mono (sig : Signal) (os : List Nat) {l : Listener} :
    ∀ c : Capitan, l ∈ regGet c.registry sig →
      l ∈ regGet ((os.foldl (fun c o => attachOne c sig o) c)).registry sig := by
  induction os with
  | nil => exact fun c h => h
  | cons o rest ih =>
    intro c h
    simp only [List.foldl_cons]
    exact ih _ (attachOne_regGet_mono c sig o h)

theorem attachOne_regGet_owner (c : Capitan) (sig : Signal) (o : Nat) {l : Listener}
    (hl : l ∈ regGet (attachOne c sig o).registry sig) :
    l ∈ regGet c.registry sig ∨ l.owner = some o := by
  unfold attachOne at hl
  cases hfo : obsFind c.obsHeap o with
  | none => rw [hfo] at hl; exact Or.inl hl
  | some obs2 =>
    rw [hfo] at hl
    dsimp only at hl
    split at hl
    · rw [show (regGet
          ({ c with
              registry := SMap.set c.registry sig (regGet c.registry sig ++
                [{ id := c.nextId, signal := sig, cb := obs2.cb, owner := some o }]),
              obsHeap := obsUpdate c.obsHeap { obs2 with listeners := obs2.listeners ++
                [{ id := c.nextId, signal := sig, cb := obs2.cb, owner := some o }] },
              created := c.created ++
                [{ id := c.nextId, signal := sig, cb := obs2.cb, owner := some o }],
              nextId := c.nextId + 1 } : Capitan).registry sig) =
          regGet c.registry sig ++
            [{ id := c.nextId, signal := sig, cb := obs2.cb, owner := some o }] from by
        show regGet (SMap.set c.registry sig _) sig = _
        rw [regGet_set, if_pos rfl]] at hl
      rcases List.mem_append.mp hl with h | h
      · exact Or.inl h
      · simp only [List.mem_singleton] at h
        rw [h]
        exact Or.inr rfl
    · exact Or.inl hl

theorem attachFold_nonmatching (sig : Signal) (oid : Nat) (obs : Observer) (os : List Nat) :
    ∀ c : Capitan, obsFind c.obsHeap oid = some obs →
      ¬(obs.active = true ∧ obsMatches obs.signals sig = true) →
      (∀ l ∈ regGet c.registry sig, l.owner ≠ some oid) →
      obsFind ((os.foldl (fun c o => attachOne c sig o) c)).obsHeap oid = some obs
      ∧ ∀ l ∈ regGet ((os.foldl (fun c o => attachOne c sig o) c)).registry sig,
          l.owner ≠ some oid := by
  induction os with
  | nil => exact fun c hf hnm hpre => ⟨hf, hpre⟩
  | cons o rest ih =>
    intro c hf hnm hpre
    simp only [List.foldl_cons]
    by_cases ho : o = oid
    · subst ho
      have hone : attachOne c sig o = c := by
        unfold attachOne
        rw [hf]
        dsimp only
        rw [if_neg hnm]
      rw [hone]
      exact ih c hf hnm hpre
    · refine ih (attachOne c sig o) ?_ hnm ?_
      · rw [attachOne_find_ne c sig o oid ho]
        exact hf
      · intro l hl
        rcases attachOne_regGet_owner c sig o hl with h | h
        · exact hpre l h
        · rw [h]
          intro hc
          exact ho (by injection hc)

theorem attachFold_matching (sig : Signal) (oid : Nat) (obs : Observer)
    (o1 o2 : List Nat) (hno1 : oid ∉ o1) (hno2 : oid ∉ o2) :
    ∀ c : Capitan, obsFind c.obsHeap oid = some obs →
      obs.active = true → obsMatches obs.signals sig = true →
      ∃ l : Listener, l.cb = obs.cb ∧ l.owner = some oid ∧ l.signal = sig
        ∧ l ∈ regGet (((o1 ++ oid :: o2).foldl (fun c o => attachOne c sig o) c)).registry sig
        ∧ ∃ obs2 : Observer,
            obsFind (((o1 ++ oid :: o2).foldl (fun c o => attachOne c sig o) c)).obsHeap oid
              = some obs2
            ∧ obs2.listeners = obs.listeners ++ [l] := by
  intro c hf hact hmatch
  rw [List.foldl_append, List.foldl_cons]
  have hf1 : obsFind (o1.foldl (fun c o => attachOne c sig o) c).obsHeap oid = some obs := by
    rw [attachFold_find_ne sig o1 oid hno1]
    exact hf
  set c1 := o1.foldl (fun c o => attachOne c sig o) c with hc1
  set l : Listener :=
    { id := c1.nextId, signal := sig, cb := obs.cb, owner := some oid } with hl
  have hstep : attachOne c1 sig oid =
      { c1 with
          registry := SMap.set c1.registry sig (regGet c1.registry sig ++ [l]),
          obsHeap := obsUpdate c1.obsHeap { obs with listeners := obs.listeners ++ [l] },
          created := c1.created ++ [l],
          nextId := c1.nextId + 1 } := by
    unfold attachOne
    rw [hf1]
    dsimp only
    rw [if_pos ⟨hact, hmatch⟩]
  refine ⟨l, rfl, rfl, rfl, ?_, ?_⟩
  · refine attachFold_regGet_mono sig o2 _ ?_
    rw [hstep]
    show l ∈ regGet (SMap.set c1.registry sig (regGet c1.registry sig ++ [l])) sig
    rw [regGet_set, if_pos rfl]
    exact List.mem_append.mpr (Or.inr (List.mem_singleton.mpr rfl))
  · refine ⟨{ obs with listeners := obs.listeners ++ [l] }, ?_, rfl⟩
    rw [attachFold_find_ne sig o2 oid hno2, hstep]
    show obsFind (obsUpdate c1.obsHeap { obs with listeners := obs.listeners ++ [l] }) oid
      = some { obs with listeners := obs.listeners ++ [l] }
    exact obsUpdate_find_eq { obs with listeners := obs.listeners ++ [l] } hf1 (@obsFind_id c1.obsHeap oid obs hf1)

theorem poolGet_obsHeap (c : Capitan) : (poolGet c).2.obsHeap = c.obsHeap := by
  unfold poolGet; cases c.pool <;> rfl

theorem hook_new_eq (c : Capitan) (sig : Signal) (cb : Nat)
    (hnew : SMap.find c.registry sig = none) :
    (c.hook sig cb).1 = Capitan.attachObservers
      { c with
          registry := SMap.set c.registry sig (regGet c.registry sig ++
            [{ id := c.nextId, signal := sig, cb := cb, owner := none }]),
          created := c.created ++ [{ id := c.nextId, signal := sig, cb := cb, owner := none }],
          nextId := c.nextId + 1 } sig := by
  simp only [Capitan.hook, hnew]
  rfl

theorem ensureWorker_unseen (c : Capitan) (sig : Signal)
    (hW : workersHaveListeners c) (hnew : SMap.find c.registry sig = none) :
    (c.ensureWorker sig).1.registry =
      (Capitan.attachObservers { c with registry := SMap.set c.registry sig [] } sig).registry
    ∧ (c.ensureWorker sig).1.obsHeap =
      (Capitan.attachObservers { c with registry := SMap.set c.registry sig [] } sig).obsHeap := by
  have hempty : regGet c.registry sig = [] := by unfold regGet; rw [hnew]; rfl
  have hnw : SMap.find c.workers sig = none := by
    cases hfw : SMap.find c.workers sig with
    | none => rfl
    | some w => exact absurd hempty (hW (sig, w) (SMap.find_mem hfw))
  simp only [Capitan.ensureWorker]
  split_ifs with h1 h2 h3 h4
  · rw [hnw] at h1; simp at h1
  · rw [hnew] at h3; simp at h3
  · exact ⟨rfl, rfl⟩
  · exact ⟨rfl, rfl⟩
  · rw [hempty] at h2; simp at h2

theorem emit_registry_obsHeap (c : Capitan) (sig : Signal) (cc : Bool) (sev : Severity)
    (fs : List Field) (pd : Bool) :
    (c.emit sig cc sev fs pd).1.registry = (c.ensureWorker sig).1.registry
    ∧ (c.emit sig cc sev fs pd).1.obsHeap = (c.ensureWorker sig).1.obsHeap := by
  have hr := poolGet_registry (c.ensureWorker sig).1
  have ho := poolGet_obsHeap (c.ensureWorker sig).1
  simp only [Capitan.emit]
  split_ifs with hns
  · exact ⟨rfl, rfl⟩
  · split
    · exact ⟨hr, ho⟩
    · rename_i w heq
      split_ifs with h2 h3
      · exact ⟨hr, ho⟩
      · exact ⟨hr, ho⟩
      · exact ⟨hr, ho⟩

/-- The whitelist invariant for one observer: its heap entry carries the
whitelist `wl`, its id lies in the allocator's past, and every listener it
owns targets a whitelisted signal. -/
def ownerRespectsWhitelist (c : Capitan) (oid : Nat) (wl : List Signal) : Prop :=
  oid < c.nextId
  ∧ (∃ obs : Observer, obsFind c.obsHeap oid = some obs ∧ obs.signals = some wl)
  ∧ ∀ p ∈ c.registry, ∀ l ∈ p.2, l.owner = some oid → p.1 ∈ wl

theorem obsMatches_some_mem {wl : List Signal} {sig : Signal}
    (h : obsMatches (some wl) sig = true) : sig ∈ wl := by
  unfold obsMatches at h
  exact of_decide_eq_true h

theorem regOwnerWl_set_append {m : List (Signal × List Listener)} {oid : Nat}
    {wl : List Signal} (k : Signal) (lnew : Listener)
    (hm : ∀ p ∈ m, ∀ l ∈ p.2, l.owner = some oid → p.1 ∈ wl)
    (hnew : lnew.owner = some oid → k ∈ wl) :
    ∀ p ∈ SMap.set m k (regGet m k ++ [lnew]), ∀ l ∈ p.2, l.owner = some oid → p.1 ∈ wl := by
  intro p hp l hl ho
  rcases SMap.mem_set hp with h | h
  · exact hm p h l hl ho
  · subst h
    rcases List.mem_append.mp hl with h2 | h2
    · exact hm (k, regGet m k) (regGet_mem h2) l h2 ho
    · simp only [List.mem_singleton] at h2
      subst h2
      exact hnew ho

theorem regOwnerWl_set_sub {m : List (Signal × List Listener)} {oid : Nat}
    {wl : List Signal} (k : Signal) (sub : List Listener)
    (hm : ∀ p ∈ m, ∀ l ∈ p.2, l.owner = some oid → p.1 ∈ wl)
    (hsub : ∀ l ∈ sub, l ∈ regGet m k) :
    ∀ p ∈ SMap.set m k sub, ∀ l ∈ p.2, l.owner = some oid → p.1 ∈ wl := by
  intro p hp l hl ho
  rcases SMap.mem_set hp with h | h
  · exact hm p h l hl ho
  · subst h
    exact hm (k, regGet m k) (regGet_mem (hsub l hl)) l (hsub l hl) ho

theorem regOwnerWl_erase {m : List (Signal × List Listener)} {oid : Nat}
    {wl : List Signal} (k : Signal)
    (hm : ∀ p ∈ m, ∀ l ∈ p.2, l.owner = some oid → p.1 ∈ wl) :
    ∀ p ∈ SMap.erase m k, ∀ l ∈ p.2, l.owner = some oid → p.1 ∈ wl :=
  fun p hp l hl ho => hm p (SMap.mem_erase hp) l hl ho

theorem Q_attachOne (c : Capitan) (sig : Signal) (o oid : Nat) (wl : List Signal)
    (h : ownerRespectsWhitelist c oid wl) :
    ownerRespectsWhitelist (attachOne c sig o) oid wl := by
  obtain ⟨hlt, ⟨obs, hf, hsig⟩, hreg⟩ := h
  unfold attachOne
  cases hfo : obsFind c.obsHeap o with
  | none => exact ⟨hlt, ⟨obs, hf, hsig⟩, hreg⟩
  | some obs2 =>
    dsimp only
    split_ifs with hcond
    · by_cases ho : o = oid
      · subst ho
        rw [hf] at hfo
        cases hfo
        refine ⟨Nat.lt_succ_of_lt hlt,
          ⟨{ obs with listeners := obs.listeners ++
              [{ id := c.nextId, signal := sig, cb := obs.cb, owner := some o }] },
            obsUpdate_find_eq _ hf (@obsFind_id c.obsHeap o obs hf), hsig⟩, ?_⟩
        refine regOwnerWl_set_append sig _ hreg ?_
        intro _
        rw [hsig] at hcond
        exact obsMatches_some_mem hcond.2
      · refine ⟨Nat.lt_succ_of_lt hlt, ⟨obs, ?_, hsig⟩, ?_⟩
        · rw [obsUpdate_find_ne]
          · exact hf
          · show obs2.id ≠ oid
            rw [obsFind_id hfo]
            exact ho
        · refine regOwnerWl_set_append sig _ hreg ?_
          intro hc
          exact absurd (by injection hc) ho
    · exact ⟨hlt, ⟨obs, hf, hsig⟩, hreg⟩

theorem Q_attachFold (sig : Signal) (os : List Nat) (oid : Nat) (wl : List Signal) :
    ∀ c : Capitan, ownerRespectsWhitelist c oid wl →
      ownerRespectsWhitelist ((os.foldl (fun c o => attachOne c sig o) c)) oid wl := by
  induction os with
  | nil => exact fun c h => h
  | cons o rest ih =>
    intro c h
    simp only [List.foldl_cons]
    exact ih _ (Q_attachOne c sig o oid wl h)

theorem Q_attachObservers (c : Capitan) (sig : Signal) (oid : Nat) (wl : List Signal)
    (h : ownerRespectsWhitelist c oid wl) :
    ownerRespectsWhitelist (c.attachObservers sig) oid wl :=
  Q_attachFold sig c.observers oid wl c h

theorem Q_hook (c : Capitan) (sig : Signal) (cb : Nat) (oid : Nat) (wl : List Signal)
    (h : ownerRespectsWhitelist c oid wl) :
    ownerRespectsWhitelist (c.hook sig cb).1 oid wl := by
  obtain ⟨hlt, hheap, hreg⟩ := h
  have h1 : ownerRespectsWhitelist
      { c with
          registry := SMap.set c.registry sig (regGet c.registry sig ++
            [{ id := c.nextId, signal := sig, cb := cb, owner := none }]),
          created := c.created ++ [{ id := c.nextId, signal := sig, cb := cb, owner := none }],
          nextId := c.nextId + 1 } oid wl := by
    refine ⟨Nat.lt_succ_of_lt hlt, hheap, ?_⟩
    refine regOwnerWl_set_append sig _ hreg ?_
    intro hc
    simp at hc
  simp only [Capitan.hook]
  split
  · exact h1
  · exact Q_attachObservers _ sig oid wl h1

theorem Q_observeStep (cb oidp : Nat) (keys : List Signal) (oid : Nat) (wl : List Signal)
    (hne : oidp ≠ oid) :
    ∀ acc : Capitan × Observer, ownerRespectsWhitelist acc.1 oid wl →
      ownerRespectsWhitelist ((keys.foldl (observeStep cb oidp) acc)).1 oid wl := by
  induction keys with
  | nil => exact fun acc h => h
  | cons k rest ih =>
    intro acc h
    simp only [List.foldl_cons]
    refine ih _ ?_
    obtain ⟨hlt, hheap, hreg⟩ := h
    unfold observeStep
    split
    · refine ⟨Nat.lt_succ_of_lt hlt, hheap, ?_⟩
      refine regOwnerWl_set_append k _ hreg ?_
      intro hc
      exact absurd (by injection hc) hne
    · exact ⟨hlt, hheap, hreg⟩

theorem Q_observe (c : Capitan) (cb : Nat) (sigs : List Signal) (oid : Nat) (wl : List Signal)
    (h : ownerRespectsWhitelist c oid wl) :
    ownerRespectsWhitelist (c.observe cb sigs).1 oid wl := by
  have hne : c.nextId ≠ oid := fun hc => Nat.lt_irrefl _ (hc ▸ h.1)
  simp only [Capitan.observe]
  have hinit : ownerRespectsWhitelist
      ({ c with nextId := c.nextId + 1 } : Capitan) oid wl :=
    ⟨Nat.lt_succ_of_lt h.1, h.2.1, h.2.2⟩
  have hfold := Q_observeStep cb c.nextId (c.registry.map Prod.fst) oid wl hne
    ({ c with nextId := c.nextId + 1 },
     { id := c.nextId, listeners := [], cb := cb, active := true,
       signals := if sigs = [] then none else some sigs }) hinit
  obtain ⟨hlt, ⟨obs, hf, hsig⟩, hreg⟩ := hfold
  exact ⟨hlt, ⟨obs, obsFind_append_left hf _, hsig⟩, hreg⟩

theorem Q_ensureWorker (c : Capitan) (sig : Signal) (oid : Nat) (wl : List Signal)
    (h : ownerRespectsWhitelist c oid wl) :
    ownerRespectsWhitelist (c.ensureWorker sig).1 oid wl := by
  have hset : ownerRespectsWhitelist
      ({ c with registry := SMap.set c.registry sig [] } : Capitan) oid wl := by
    refine ⟨h.1, h.2.1, ?_⟩
    refine regOwnerWl_set_sub sig [] h.2.2 ?_
    intro l hl
    simp at hl
  simp only [Capitan.ensureWorker]
  split_ifs with h1 h2 h3 h4
  · exact h
  · exact h
  · exact Q_attachObservers _ sig oid wl hset
  · exact ⟨(Q_attachObservers _ sig oid wl hset).1, (Q_attachObservers _ sig oid wl hset).2.1,
      (Q_attachObservers _ sig oid wl hset).2.2⟩
  · exact ⟨h.1, h.2.1, h.2.2⟩

theorem Q_emit (c : Capitan) (sig : Signal) (cc : Bool) (sev : Severity) (fs : List Field)
    (pd : Bool) (oid : Nat) (wl : List Signal)
    (h : ownerRespectsWhitelist c oid wl) :
    ownerRespectsWhitelist (c.emit sig cc sev fs pd).1 oid wl := by
  have he := Q_ensureWorker c sig oid wl h
  have hg : ownerRespectsWhitelist (poolGet (c.ensureWorker sig).1).2 oid wl := by
    refine ⟨by rw [poolGet_nextId]; exact he.1, ?_, ?_⟩
    · rw [poolGet_obsHeap]; exact he.2.1
    · rw [poolGet_registry]; exact he.2.2
  simp only [Capitan.emit]
  split_ifs with hns
  · exact he
  · split
    · exact ⟨Nat.lt_succ_of_lt hg.1, hg.2.1, hg.2.2⟩
    · rename_i w heq
      split_ifs with h2 h3
      · exact ⟨Nat.lt_succ_of_lt hg.1, hg.2.1, hg.2.2⟩
      · exact ⟨Nat.lt_succ_of_lt hg.1, hg.2.1, hg.2.2⟩
      · exact ⟨Nat.lt_succ_of_lt hg.1, hg.2.1, hg.2.2⟩

theorem Q_unregister (c : Capitan) (l : Listener) (oid : Nat) (wl : List Signal)
    (h : ownerRespectsWhitelist c oid wl) :
    ownerRespectsWhitelist (c.unregister l) oid wl := by
  obtain ⟨hlt, hheap, hreg⟩ := h
  simp only [Capitan.unregister]
  split_ifs with hfi hz hz
  all_goals (try split)
  all_goals refine ⟨hlt, hheap, ?_⟩
  · -- removed, entry now empty, worker moved out
    refine regOwnerWl_erase _ ?_
    refine regOwnerWl_set_sub _ _ hreg ?_
    exact fun x hx => mem_swapRemoveP hx
  · refine regOwnerWl_erase _ ?_
    refine regOwnerWl_set_sub _ _ hreg ?_
    exact fun x hx => mem_swapRemoveP hx
  · refine regOwnerWl_set_sub _ _ hreg ?_
    exact fun x hx => mem_swapRemoveP hx
  · exact regOwnerWl_erase _ hreg
  · exact regOwnerWl_erase _ hreg
  · exact hreg

theorem Q_foldUnregister (ls : List Listener) (oid : Nat) (wl : List Signal) :
    ∀ c : Capitan, ownerRespectsWhitelist c oid wl →
      ownerRespectsWhitelist (ls.foldl (fun c l => Capitan.unregister c l) c) oid wl := by
  induction ls with
  | nil => exact fun c h => h
  | cons l rest ih =>
    intro c h
    simp only [List.foldl_cons]
    exact ih _ (Q_unregister c l oid wl h)

theorem Q_closeListener (c : Capitan) (lid : Nat) (oid : Nat) (wl : List Signal)
    (h : ownerRespectsWhitelist c oid wl) :
    ownerRespectsWhitelist (c.closeListener lid) oid wl := by
  unfold Capitan.closeListener
  cases c.created.find? (fun l => decide (l.id = lid)) with
  | none => exact h
  | some l => exact Q_unregister c l oid wl h

theorem Q_closeObserver (c : Capitan) (tid : Nat) (oid : Nat) (wl : List Signal)
    (h : ownerRespectsWhitelist c oid wl) :
    ownerRespectsWhitelist (c.closeObserver tid) oid wl := by
  obtain ⟨hlt, ⟨obs, hf, hsig⟩, hreg⟩ := h
  unfold Capitan.closeObserver
  cases hft : obsFind c.obsHeap tid with
  | none => exact ⟨hlt, ⟨obs, hf, hsig⟩, hreg⟩
  | some obs2 =>
    dsimp only
    split_ifs with hact
    · refine Q_foldUnregister obs2.listeners oid wl _ ?_
      refine ⟨hlt, ?_, hreg⟩
      by_cases ht : tid = oid
      · subst ht
        rw [hf] at hft
        cases hft
        exact ⟨{ obs with active := false, listeners := [] },
          obsUpdate_find_eq _ hf (@obsFind_id c.obsHeap tid obs hf), hsig⟩
      · refine ⟨obs, ?_, hsig⟩
        rw [obsUpdate_find_ne]
        · exact hf
        · show obs2.id ≠ oid
          rw [obsFind_id hft]
          exact ht
    · exact ⟨hlt, ⟨obs, hf, hsig⟩, hreg⟩

theorem workerDeq_obsHeap (env : PanicEnv) (c : Capitan) (sig : Signal) :
    (c.workerDeq env sig).1.obsHeap = c.obsHeap := by
  unfold Capitan.workerDeq
  cases SMap.find c.workers sig with
  | none => rfl
  | some w =>
    dsimp only
    cases w.events with
    | nil => rfl
    | cons e rest => rw [processEvent_fst]; rfl

theorem workerDeq_nextId (env : PanicEnv) (c : Capitan) (sig : Signal) :
    (c.workerDeq env sig).1.nextId = c.nextId := by
  unfold Capitan.workerDeq
  cases SMap.find c.workers sig with
  | none => rfl
  | some w =>
    dsimp only
    cases w.events with
    | nil => rfl
    | cons e rest => rw [processEvent_fst]; rfl

theorem workerStop_obsHeap (env : PanicEnv) (c : Capitan) (sig : Signal) :
    (c.workerStop env sig).1.obsHeap = c.obsHeap := by
  unfold Capitan.workerStop
  cases SMap.find c.workers sig with
  | none => rfl
  | some w =>
    dsimp only
    split_ifs with hs
    · rw [drainEvents_fst]
    · rfl

theorem workerStop_nextId (env : PanicEnv) (c : Capitan) (sig : Signal) :
    (c.workerStop env sig).1.nextId = c.nextId := by
  unfold Capitan.workerStop
  cases SMap.find c.workers sig with
  | none => rfl
  | some w =>
    dsimp only
    split_ifs with hs
    · rw [drainEvents_fst]
    · rfl

theorem exitDrain_obsHeap (env : PanicEnv) (c : Capitan) (sig : Signal) :
    (c.exitDrain env sig).1.obsHeap = c.obsHeap := by
  unfold Capitan.exitDrain
  cases SMap.find c.exiting sig with
  | none => rfl
  | some w =>
    dsimp only
    rw [drainEvents_fst]

theorem exitDrain_nextId (env : PanicEnv) (c : Capitan) (sig : Signal) :
    (c.exitDrain env sig).1.nextId = c.nextId := by
  unfold Capitan.exitDrain
  cases SMap.find c.exiting sig with
  | none => rfl
  | some w =>
    dsimp only
    rw [drainEvents_fst]

theorem shutdownBus_obsHeap (env : PanicEnv) (c : Capitan) :
    (c.shutdownBus env).1.obsHeap = c.obsHeap := by
  show (Capitan.shutdownBus env c).1.obsHeap = c.obsHeap
  unfold Capitan.shutdownBus
  simp only [drainAll_fst]

theorem Q_congr {c c' : Capitan} {oid : Nat} {wl : List Signal}
    (h : ownerRespectsWhitelist c oid wl)
    (hn : c'.nextId = c.nextId) (hh : c'.obsHeap = c.obsHeap)
    (hr : c'.registry = c.registry) :
    ownerRespectsWhitelist c' oid wl := by
  refine ⟨hn ▸ h.1, ?_, hr ▸ h.2.2⟩
  rw [hh]
  exact h.2.1

theorem Q_step (env : PanicEnv) (c : Capitan) (op : Op) (oid : Nat) (wl : List Signal)
    (h : ownerRespectsWhitelist c oid wl) :
    ownerRespectsWhitelist (c.step env op).1 oid wl := by
  cases op with
  | hook sig cb => simpa [Capitan.step] using Q_hook c sig cb oid wl h
  | observe cb sigs => simpa [Capitan.step] using Q_observe c cb sigs oid wl h
  | emit sig cc sev fs pd => simpa [Capitan.step] using Q_emit c sig cc sev fs pd oid wl h
  | closeListener lid => simpa [Capitan.step] using Q_closeListener c lid oid wl h
  | closeObserver tid => simpa [Capitan.step] using Q_closeObserver c tid oid wl h
  | workerDeq sig =>
    exact Q_congr h (workerDeq_nextId env c sig) (workerDeq_obsHeap env c sig)
      (workerDeq_registry env c sig)
  | workerStop sig =>
    exact Q_congr h (workerStop_nextId env c sig) (workerStop_obsHeap env c sig)
      (workerStop_registry env c sig)
  | exitDrain sig =>
    exact Q_congr h (exitDrain_nextId env c sig) (exitDrain_obsHeap env c sig)
      (exitDrain_registry env c sig)
  | shutdown =>
    exact Q_congr h (shutdownBus_nextId env c) (shutdownBus_obsHeap env c)
      (shutdownBus_registry env c)

theorem eventTrace_invoke_mem (env : PanicEnv) (reg : List (Signal × List Listener))
    (ph : Bool) (sig : Signal) (e : Event) {l : Listener} {s : Signal} {i : Nat}
    (h : TraceItem.invoke l s i ∈ eventTrace env reg ph sig e) :
    l ∈ regGet reg sig ∧ s = sig := by
  unfold eventTrace at h
  split_ifs at h with hc
  · simp at h
  · rcases List.mem_flatMap.mp h with ⟨l2, hl2, hx⟩
    rw [invokeListener_eq] at hx
    rcases List.mem_cons.mp hx with h2 | h2
    · injection h2 with h3 h4 h5
      exact ⟨h3 ▸ hl2, h4⟩
    · exfalso
      unfold invokeTail at h2
      cases henv : env l2.cb with
      | none => rw [henv] at h2; simp at h2
      | some r =>
        rw [henv] at h2
        split at h2 <;> simp at h2

theorem step_invoke_reg (env : PanicEnv) (c : Capitan) (op : Op) {l : Listener}
    {s : Signal} {i : Nat} (h : TraceItem.invoke l s i ∈ (c.step env op).2) :
    l ∈ regGet c.registry s := by
  cases op with
  | hook sig cb => simp [Capitan.step] at h
  | observe cb sigs => simp [Capitan.step] at h
  | emit sig cc sev fs pd => simp [Capitan.step] at h
  | closeListener lid => simp [Capitan.step] at h
  | closeObserver oid => simp [Capitan.step] at h
  | workerDeq sig =>
    show l ∈ regGet c.registry s
    rw [show (c.step env (Op.workerDeq sig)).2 = (c.workerDeq env sig).2 from rfl] at h
    unfold Capitan.workerDeq at h
    cases hf : SMap.find c.workers sig with
    | none => rw [hf] at h; simp at h
    | some w =>
      rw [hf] at h
      dsimp only at h
      cases hev : w.events with
      | nil => rw [hev] at h; simp at h
      | cons e rest =>
        rw [hev] at h
        dsimp only at h
        rw [processEvent_snd] at h
        rcases eventTrace_invoke_mem env _ _ sig e h with ⟨hm, hs⟩
        exact hs ▸ hm
  | workerStop sig =>
    rw [show (c.step env (Op.workerStop sig)).2 = (c.workerStop env sig).2 from rfl] at h
    unfold Capitan.workerStop at h
    cases hf : SMap.find c.workers sig with
    | none => rw [hf] at h; simp at h
    | some w =>
      rw [hf] at h
      dsimp only at h
      split_ifs at h with hs2
      · rw [drainEvents_snd] at h
        rcases List.mem_flatMap.mp h with ⟨e, he, hx⟩
        rcases eventTrace_invoke_mem env _ _ sig e hx with ⟨hm, hs⟩
        exact hs ▸ hm
      · simp at h
  | exitDrain sig =>
    rw [show (c.step env (Op.exitDrain sig)).2 = (c.exitDrain env sig).2 from rfl] at h
    unfold Capitan.exitDrain at h
    cases hf : SMap.find c.exiting sig with
    | none => rw [hf] at h; simp at h
    | some w =>
      rw [hf] at h
      dsimp only at h
      rw [drainEvents_snd] at h
      rcases List.mem_flatMap.mp h with ⟨e, he, hx⟩
      rcases eventTrace_invoke_mem env _ _ sig e hx with ⟨hm, hs⟩
      exact hs ▸ hm
  | shutdown =>
    rw [show (c.step env Op.shutdown).2 = (c.shutdownBus env).2 from rfl] at h
    rw [shutdownBus_snd] at h
    rcases List.mem_append.mp h with hm | hm <;>
    · rcases List.mem_flatMap.mp hm with ⟨p, hp, hx⟩
      rcases List.mem_flatMap.mp hx with ⟨e, hep, hx2⟩
      rcases eventTrace_invoke_mem env _ _ p.1 e hx2 with ⟨hmem, hs⟩
      exact hs ▸ hmem

theorem run_whitelist (env : PanicEnv) (ops : List Op) :
    ∀ (c : Capitan) (oid : Nat) (wl : List Signal), ownerRespectsWhitelist c oid wl →
      ownerRespectsWhitelist (Capitan.run env c ops).1 oid wl
      ∧ ∀ l s i, TraceItem.invoke l s i ∈ (Capitan.run env c ops).2 →
          l.owner = some oid → s ∈ wl := by
  induction ops with
  | nil => exact fun c oid wl h => ⟨h, by simp [Capitan.run]⟩
  | cons op rest ih =>
    intro c oid wl h
    have h1 := Q_step env c op oid wl h
    have h2 := ih (c.step env op).1 oid wl h1
    refine ⟨h2.1, ?_⟩
    intro l s i hmem ho
    simp only [Capitan.run] at hmem
    rcases List.mem_append.mp hmem with hm | hm
    · have hl := step_invoke_reg env c op hm
      exact h.2.2 (s, regGet c.registry s) (regGet_mem hl) l hl ho
    · exact h2.2 l s i hm ho

/-- C6: whenever a signal gains its first registry entry — through `Hook` or
through the first `Emit` to a previously-unseen signal — every
currently-attached active observer whose whitelist admits the signal gets a
new listener bound to its callback appended to both the registry entry and
the observer's own listener list; an observer that is inactive or whose
whitelist excludes the signal has no listener created for it; and an
observer whose whitelist excludes a signal never fires for it — no run ever
produces an invocation, for that signal, of a listener the observer owns. -/
theorem observer_attachment (env : PanicEnv) (c cq : Capitan) (sig : Signal) (cb : Nat)
    (cc : Bool) (sev : Severity) (fs : List Field) (pd : Bool)
    (oidM oidN oid : Nat) (obsM obsN : Observer) (wl : List Signal)
    (ops : List Op) (s2 : Signal)
    (hnew : SMap.find c.registry sig = none)
    (hW : workersHaveListeners c)
    (hnd : c.observers.Nodup)
    (hM : oidM ∈ c.observers)
    (hfM : obsFind c.obsHeap oidM = some obsM)
    (hact : obsM.active = true)
    (hmatch : obsMatches obsM.signals sig = true)
    (hfN : obsFind c.obsHeap oidN = some obsN)
    (hnm : ¬(obsN.active = true ∧ obsMatches obsN.signals sig = true))
    (hpre : ∀ l ∈ regGet c.registry sig, l.owner ≠ some oidN)
    (hQ : ownerRespectsWhitelist cq oid wl)
    (hs2 : s2 ∉ wl) :
    (∃ l : Listener, l.cb = obsM.cb ∧ l.owner = some oidM ∧ l.signal = sig
      ∧ l ∈ regGet (c.hook sig cb).1.registry sig
      ∧ ∃ obs2 : Observer, obsFind (c.hook sig cb).1.obsHeap oidM = some obs2
          ∧ obs2.listeners = obsM.listeners ++ [l])
    ∧ (∃ l : Listener, l.cb = obsM.cb ∧ l.owner = some oidM ∧ l.signal = sig
      ∧ l ∈ regGet (c.emit sig cc sev fs pd).1.registry sig
      ∧ ∃ obs2 : Observer, obsFind (c.emit sig cc sev fs pd).1.obsHeap oidM = some obs2
          ∧ obs2.listeners = obsM.listeners ++ [l])
    ∧ (obsFind (c.hook sig cb).1.obsHeap oidN = some obsN
      ∧ ∀ l ∈ regGet (c.hook sig cb).1.registry sig, l.owner ≠ some oidN)
    ∧ (obsFind (c.emit sig cc sev fs pd).1.obsHeap oidN = some obsN
      ∧ ∀ l ∈ regGet (c.emit sig cc sev fs pd).1.registry sig, l.owner ≠ some oidN)
    ∧ (∀ l : Listener, ∀ i : Nat, l.owner = some oid →
        TraceItem.invoke l s2 i ∉ (Capitan.run env cq ops).2) := by
  rcases List.append_of_mem hM with ⟨o1, o2, hsplit⟩
  have hnd2 := hsplit ▸ hnd
  have hno1 : oidM ∉ o1 := by
    intro hc
    exact (List.disjoint_of_nodup_append hnd2) hc (List.mem_cons_self _ _)
  have hno2 : oidM ∉ o2 :=
    (List.nodup_cons.mp (List.nodup_append.mp hnd2).2.1).1
  refine ⟨?_, ?_, ?_, ?_, ?_⟩
  · -- Hook attaches the matching observer
    rw [hook_new_eq c sig cb hnew]
    unfold Capitan.attachObservers
    rw [show ({ c with
        registry := SMap.set c.registry sig (regGet c.registry sig ++
          [{ id := c.nextId, signal := sig, cb := cb, owner := none }]),
        created := c.created ++ [{ id := c.nextId, signal := sig, cb := cb, owner := none }],
        nextId := c.nextId + 1 } : Capitan).observers = c.observers from rfl, hsplit]
    exact attachFold_matching sig oidM obsM o1 o2 hno1 hno2 _ hfM hact hmatch
  · -- the first Emit attaches the matching observer
    obtain ⟨her, heh⟩ := emit_registry_obsHeap c sig cc sev fs pd
    obtain ⟨hur, huh⟩ := ensureWorker_unseen c sig hW hnew
    rcases attachFold_matching sig oidM obsM o1 o2 hno1 hno2
        ({ c with registry := SMap.set c.registry sig [] } : Capitan) hfM hact hmatch with
      ⟨l, hcb, how, hsg, hmem, obs2, hf2, hls⟩
    rw [hsplit] at hmem hf2
    refine ⟨l, hcb, how, hsg, ?_, obs2, ?_, hls⟩
    · rw [her, hur]
      unfold Capitan.attachObservers
      rw [show ({ c with registry := SMap.set c.registry sig [] } : Capitan).observers
        = c.observers from rfl, hsplit]
      exact hmem
    · rw [heh, huh]
      unfold Capitan.attachObservers
      rw [show ({ c with registry := SMap.set c.registry sig [] } : Capitan).observers
        = c.observers from rfl, hsplit]
      exact hf2
  · -- Hook leaves the non-matching observer untouched
    rw [hook_new_eq c sig cb hnew]
    unfold Capitan.attachObservers
    refine attachFold_nonmatching sig oidN obsN _ _ hfN hnm ?_
    show ∀ l ∈ regGet (SMap.set c.registry sig (regGet c.registry sig ++
      [{ id := c.nextId, signal := sig, cb := cb, owner := none }])) sig,
        l.owner ≠ some oidN
    rw [regGet_set, if_pos rfl]
    intro l hl
    rcases List.mem_append.mp hl with h | h
    · exact hpre l h
    · simp only [List.mem_singleton] at h
      rw [h]
      simp
  · -- the first Emit leaves the non-matching observer untouched
    obtain ⟨her, heh⟩ := emit_registry_obsHeap c sig cc sev fs pd
    obtain ⟨hur, huh⟩ := ensureWorker_unseen c sig hW hnew
    have := attachFold_nonmatching sig oidN obsN
      (({ c with registry := SMap.set c.registry sig [] } : Capitan)).observers
      ({ c with registry := SMap.set c.registry sig [] } : Capitan) hfN hnm
      (by
        show ∀ l ∈ regGet (SMap.set c.registry sig []) sig, l.owner ≠ some oidN
        rw [regGet_set, if_pos rfl]
        intro l hl
        simp at hl)
    constructor
    · rw [heh, huh]
      exact this.1
    · rw [her, hur]
      exact this.2
  · -- whitelist filtering: never fires for a signal outside the whitelist
    intro l i ho hmem
    exact hs2 ((run_whitelist env ops cq oid wl hQ).2 l s2 i hmem ho)

/-- A concrete bus for exercising observer attachment: a fresh bus carrying
one observer whitelisted to `"s"` (id 0, callback 7) and one whitelisted to
`"t"` (id 1, callback 8); no signal has been hooked or emitted yet. -/
def obsBus : Capitan := (((Capitan.new 16 false).observe 7 ["s"]).1.observe 8 ["t"]).1

/-- The heap entry `Observe 7 ["s"]` creates on `obsBus`. -/
def obsM0 : Observer :=
  { id := 0, listeners := [], cb := 7, active := true, signals := some ["s"] }

/-- The heap entry `Observe 8 ["t"]` creates on `obsBus`. -/
def obsN1 : Observer :=
  { id := 1, listeners := [], cb := 8, active := true, signals := some ["t"] }

theorem observer_attachment_witness :
    SMap.find obsBus.registry "s" = none
    ∧ ((∃ l : Listener, l.cb = obsM0.cb ∧ l.owner = some 0 ∧ l.signal = "s"
          ∧ l ∈ regGet (obsBus.hook "s" 3).1.registry "s"
          ∧ ∃ obs2 : Observer, obsFind (obsBus.hook "s" 3).1.obsHeap 0 = some obs2
              ∧ obs2.listeners = obsM0.listeners ++ [l])
      ∧ (∃ l : Listener, l.cb = obsM0.cb ∧ l.owner = some 0 ∧ l.signal = "s"
          ∧ l ∈ regGet (obsBus.emit "s" false SeverityInfo [] false).1.registry "s"
          ∧ ∃ obs2 : Observer,
              obsFind (obsBus.emit "s" false SeverityInfo [] false).1.obsHeap 0 = some obs2
              ∧ obs2.listeners = obsM0.listeners ++ [l])
      ∧ (obsFind (obsBus.hook "s" 3).1.obsHeap 1 = some obsN1
          ∧ ∀ l ∈ regGet (obsBus.hook "s" 3).1.registry "s", l.owner ≠ some 1)
      ∧ (obsFind (obsBus.emit "s" false SeverityInfo [] false).1.obsHeap 1 = some obsN1
          ∧ ∀ l ∈ regGet (obsBus.emit "s" false SeverityInfo [] false).1.registry "s",
              l.owner ≠ some 1)
      ∧ (∀ l : Listener, ∀ i : Nat, l.owner = some 1 →
          TraceItem.invoke l "u" i
            ∉ (Capitan.run (fun _ => none) obsBus [Op.hook "s" 3]).2)) := by
  refine ⟨by decide, ?_⟩
  exact observer_attachment (fun _ => none) obsBus obsBus "s" 3 false SeverityInfo [] false
    0 1 1 obsM0 obsN1 ["t"] [Op.hook "s" 3] "u"
    (by decide) (by decide) (by decide) (by decide) (by decide) (by decide) (by decide)
    (by decide) (by decide) (by decide)
    ⟨by decide, ⟨obsN1, by decide, by decide⟩, by decide⟩
    (by decide)

/-! ### Close idempotence (C7) -/

theorem findIdx_some_spec {α : Type} {p : α → Bool} :
    ∀ {xs : List α} {i : Nat}, xs.findIdx? p = some i →
      ∃ h : i < xs.length, p (xs.get ⟨i, h⟩) = true := by
  intro xs
  induction xs with
  | nil => intro i h; simp [List.findIdx?] at h
  | cons a rest ih =>
    intro i h
    simp only [List.findIdx?_cons, List.findIdx?_succ] at h
    by_cases hp : p a
    · rw [if_pos hp] at h
      cases h
      exact ⟨Nat.succ_pos _, hp⟩
    · rw [if_neg hp] at h
      rcases Option.map_eq_some'.mp h with ⟨j, hj, rfl⟩
      obtain ⟨hlt, hpj⟩ := ih hj
      exact ⟨Nat.succ_lt_succ hlt, hpj⟩

theorem setLast_dropLast_nodup {β : Type} (L : List β) (i : Nat) (hL : L ≠ [])
    (hnd : L.Nodup) : ((L.set i (L.getLast hL)).dropLast).Nodup := by
  have hlen : (L.set i (L.getLast hL)).dropLast.length = L.length - 1 := by
    simp
  have hpos : 0 < L.length := List.length_pos.mpr hL
  rw [List.nodup_iff_injective_get]
  intro a b hab
  have hgl : L.getLast hL = L.get ⟨L.length - 1, by omega⟩ := by
    rw [List.getLast_eq_getElem]
    rfl
  have hval : ∀ j : Fin (L.set i (L.getLast hL)).dropLast.length,
      (L.set i (L.getLast hL)).dropLast.get j
        = L.get ⟨if i = (j : Nat) then L.length - 1 else (j : Nat), by
            rcases Nat.lt_or_ge (j : Nat) L.length with h | h
            · split <;> omega
            · exact absurd (j.isLt.trans_le (le_of_eq hlen)) (by omega)⟩ := by
    intro j
    have hj : (j : Nat) < (L.set i (L.getLast hL)).dropLast.length := j.isLt
    have hj2 : (j : Nat) < L.length - 1 := by omega
    simp only [List.get_eq_getElem, List.getElem_dropLast, List.getElem_set]
    split
    · exact List.getLast_eq_getElem L hL
    · rfl
  have hthis := hab
  rw [hval a, hval b] at hthis
  have hinj : (if i = (a : Nat) then L.length - 1 else (a : Nat))
      = (if i = (b : Nat) then L.length - 1 else (b : Nat)) := by
    rw [List.get_eq_getElem, List.get_eq_getElem] at hthis
    exact (List.Nodup.getElem_inj_iff hnd).mp hthis
  apply Fin.ext
  have ha2 : (a : Nat) < L.length - 1 := by have := a.isLt; omega
  have hb2 : (b : Nat) < L.length - 1 := by have := b.isLt; omega
  by_cases hia : i = (a : Nat) <;> by_cases hib : i = (b : Nat)
  · omega
  · rw [if_pos hia, if_neg hib] at hinj
    omega
  · rw [if_neg hia, if_pos hib] at hinj
    omega
  · rw [if_neg hia, if_neg hib] at hinj
    omega

theorem setLast_dropLast_not_mem {β : Type} (L : List β) (i : Nat) (hi : i < L.length)
    (hL : L ≠ []) (hnd : L.Nodup) (x : β)
    (hx : x ∈ (L.set i (L.getLast hL)).dropLast) : x ≠ L.get ⟨i, hi⟩ := by
  have hpos : 0 < L.length := List.length_pos.mpr hL
  rcases List.mem_iff_getElem.mp hx with ⟨j, hj, hxe⟩
  have hj2 : j < L.length - 1 := by
    have : (L.set i (L.getLast hL)).dropLast.length = L.length - 1 := by simp
    omega
  intro hc
  have hgl : L.getLast hL = L.get ⟨L.length - 1, by omega⟩ := by
    rw [List.getLast_eq_getElem]
    rfl
  rw [List.getElem_dropLast, List.getElem_set] at hxe
  by_cases hij : i = j
  · rw [if_pos hij] at hxe
    rw [hgl] at hxe
    rw [hc] at hxe
    have := (List.Nodup.getElem_inj_iff hnd).mp hxe
    omega
  · rw [if_neg hij] at hxe
    rw [hc] at hxe
    have := (List.Nodup.getElem_inj_iff hnd).mp hxe
    omega

/-- Swap-remove of the unique element whose key is `t` leaves no element
with key `t` (keys taken by `f`, assumed distinct). -/
theorem swapRemoveP_removes {α β : Type} [DecidableEq β] (f : α → β) (t : β)
    (xs : List α) (hnd : (xs.map f).Nodup) :
    ∀ x ∈ swapRemoveP xs (fun a => decide (f a = t)), f x ≠ t := by
  intro x hx
  unfold swapRemoveP at hx
  cases hfi : xs.findIdx? (fun a => decide (f a = t)) with
  | none =>
    rw [hfi] at hx
    have := List.findIdx?_eq_none_iff.mp hfi x hx
    simpa using this
  | some i =>
    rw [hfi] at hx
    obtain ⟨hi, hp⟩ := findIdx_some_spec hfi
    have hne : xs ≠ [] := by
      intro h
      subst h
      simp at hi
    rw [List.getLast?_eq_getLast xs hne] at hx
    dsimp only at hx
    have hmapne : xs.map f ≠ [] := by simpa using hne
    have hmx : f x ∈ ((xs.map f).set i ((xs.map f).getLast hmapne)).dropLast := by
      have h1 : f x ∈ ((xs.set i (xs.getLast hne)).dropLast).map f :=
        List.mem_map_of_mem f hx
      rw [List.map_dropLast, List.map_set] at h1
      have h2 : f (xs.getLast hne) = (xs.map f).getLast hmapne :=
        (List.getLast_map f xs hmapne).symm
      rw [h2] at h1
      exact h1
    have hi2 : i < (xs.map f).length := by simpa using hi
    have hneq := setLast_dropLast_not_mem (xs.map f) i hi2 hmapne hnd (f x) hmx
    intro hc
    apply hneq
    have hget : (xs.map f).get ⟨i, hi2⟩ = f (xs.get ⟨i, hi⟩) := by
      simp
    rw [hget, of_decide_eq_true hp, hc]

/-- Swap-remove keeps the keys (taken by `f`) distinct. -/
theorem swapRemoveP_nodup {α β : Type} (f : α → β) (p : α → Bool)
    (xs : List α) (hnd : (xs.map f).Nodup) :
    (((swapRemoveP xs p)).map f).Nodup := by
  unfold swapRemoveP
  cases hfi : xs.findIdx? p with
  | none => exact hnd
  | some i =>
    obtain ⟨hi, hp⟩ := findIdx_some_spec hfi
    have hne : xs ≠ [] := by
      intro h
      subst h
      simp at hi
    rw [List.getLast?_eq_getLast xs hne]
    have hmapne : xs.map f ≠ [] := by simpa using hne
    have heq : ((xs.set i (xs.getLast hne)).dropLast).map f
        = ((xs.map f).set i ((xs.map f).getLast hmapne)).dropLast := by
      have hmapne2 : xs.map f ≠ [] := by simpa using hne
      rw [List.map_dropLast, List.map_set, List.getLast_map f xs hmapne2]
    rw [heq]
    exact setLast_dropLast_nodup (xs.map f) i hmapne hnd

theorem SMap.erase_of_find_none {β : Type} {m : List (Signal × β)} {k : Signal}
    (h : SMap.find m k = none) : SMap.erase m k = m := by
  induction m with
  | nil => rfl
  | cons p rest ih =>
    rw [SMap.find] at h
    by_cases hp : p.1 = k
    · rw [if_pos hp] at h
      exact absurd h (by simp)
    · rw [if_neg hp] at h
      rw [SMap.erase, if_neg hp, ih h]

theorem regGet_erase (m : List (Signal × List Listener)) (k n : Signal) :
    regGet (SMap.erase m k) n = if n = k then [] else regGet m n := by
  unfold regGet
  rw [SMap.find_erase]
  by_cases h : n = k <;> simp [h]

/-- All listener ids inside one registry entry are distinct (per-entry form of
the id-freshness the `nextId` allocator provides). -/
def entryIdsNodup (c : Capitan) : Prop :=
  ∀ p ∈ c.registry, ((p.2.map Listener.id)).Nodup

instance (c : Capitan) : Decidable (entryIdsNodup c) :=
  inferInstanceAs (Decidable (∀ p ∈ c.registry, ((p.2.map Listener.id)).Nodup))

theorem regGet_ids_nodup (c : Capitan) (s : Signal) (hids : entryIdsNodup c) :
    ((regGet c.registry s).map Listener.id).Nodup := by
  by_cases hq : regGet c.registry s = []
  · rw [hq]
    exact List.nodup_nil
  · obtain ⟨y, hy⟩ := List.exists_mem_of_ne_nil _ hq
    exact hids (s, regGet c.registry s) (regGet_mem hy)

theorem unregister_created (c : Capitan) (l : Listener) :
    (c.unregister l).created = c.created := by
  simp only [Capitan.unregister]
  split_ifs <;> (try split) <;> rfl

theorem unregister_obsHeap (c : Capitan) (l : Listener) :
    (c.unregister l).obsHeap = c.obsHeap := by
  simp only [Capitan.unregister]
  split_ifs <;> (try split) <;> rfl

theorem unregister_observers (c : Capitan) (l : Listener) :
    (c.unregister l).observers = c.observers := by
  simp only [Capitan.unregister]
  split_ifs <;> (try split) <;> rfl

theorem unregister_regGet_ne (c : Capitan) (l : Listener) (s : Signal)
    (hs : s ≠ l.signal) :
    regGet (c.unregister l).registry s = regGet c.registry s := by
  simp only [Capitan.unregister]
  split_ifs <;> (try split) <;> simp [regGet_erase, regGet_set, hs]

theorem unregister_subset (c : Capitan) (l : Listener) (s : Signal) :
    ∀ x ∈ regGet (c.unregister l).registry s, x ∈ regGet c.registry s := by
  by_cases hs : s = l.signal
  · subst hs
    simp only [Capitan.unregister]
    split_ifs <;> (try split) <;> intro x hx
    · simp [regGet_erase] at hx
    · simp [regGet_erase] at hx
    · rw [regGet_set, if_pos rfl] at hx
      exact mem_swapRemoveP hx
    · simp [regGet_erase] at hx
    · simp [regGet_erase] at hx
    · exact hx
  · rw [unregister_regGet_ne c l s hs]
    exact fun x hx => hx

theorem unregister_removes (c : Capitan) (l : Listener) (hids : entryIdsNodup c) :
    ∀ x ∈ regGet (c.unregister l).registry l.signal, x.id ≠ l.id := by
  have hnd := regGet_ids_nodup c l.signal hids
  simp only [Capitan.unregister]
  split_ifs with hfi hz hz <;> (try split) <;> intro x hx
  · simp [regGet_erase] at hx
  · simp [regGet_erase] at hx
  · rw [regGet_set, if_pos rfl] at hx
    exact swapRemoveP_removes Listener.id l.id (regGet c.registry l.signal) hnd x hx
  · simp [regGet_erase] at hx
  · simp [regGet_erase] at hx
  · have hnone : (regGet c.registry l.signal).findIdx?
        (fun x => decide (x.id = l.id)) = none := by
      cases hcase : (regGet c.registry l.signal).findIdx?
          (fun x => decide (x.id = l.id)) with
      | none => rfl
      | some i => exact absurd (by rw [hcase]; rfl) hfi
    have := List.findIdx?_eq_none_iff.mp hnone x hx
    simpa using this

theorem unregister_nodupIds (c : Capitan) (l : Listener) (hids : entryIdsNodup c) :
    entryIdsNodup (c.unregister l) := by
  have hnd := regGet_ids_nodup c l.signal hids
  intro p hp
  simp only [Capitan.unregister] at hp
  split_ifs at hp <;> (try split at hp)
  · rcases SMap.mem_set (SMap.mem_erase hp) with h | h
    · exact hids p h
    · subst h
      exact swapRemoveP_nodup Listener.id _ _ hnd
  · rcases SMap.mem_set (SMap.mem_erase hp) with h | h
    · exact hids p h
    · subst h
      exact swapRemoveP_nodup Listener.id _ _ hnd
  · rcases SMap.mem_set hp with h | h
    · exact hids p h
    · subst h
      exact swapRemoveP_nodup Listener.id _ _ hnd
  · exact hids p (SMap.mem_erase hp)
  · exact hids p (SMap.mem_erase hp)
  · exact hids p hp

theorem unregister_post (c : Capitan) (l : Listener) :
    (SMap.find (c.unregister l).registry l.signal = none
      ∧ SMap.find (c.unregister l).workers l.signal = none)
    ∨ regGet (c.unregister l).registry l.signal ≠ [] := by
  simp only [Capitan.unregister]
  split_ifs with hfi hz hz <;> (try split)
  · left
    refine ⟨?_, ?_⟩ <;> simp [SMap.find_erase]
  · rename_i hw
    left
    refine ⟨by simp [SMap.find_erase], by simpa using hw⟩
  · right
    intro hnil
    apply hz
    rw [hnil]
    rfl
  · left
    refine ⟨?_, ?_⟩ <;> simp [SMap.find_erase]
  · rename_i hw
    left
    refine ⟨by simp [SMap.find_erase], by simpa using hw⟩
  · right
    intro hnil
    apply hz
    rw [hnil]
    rfl

/-- A second `unregister` of the same listener is a no-op: the listener is
gone from its entry, and an entry the first call deleted stays deleted. -/
theorem unregister_idem (c : Capitan) (l : Listener) (hids : entryIdsNodup c) :
    (c.unregister l).unregister l = c.unregister l := by
  have hrem := unregister_removes c l hids
  have hpost := unregister_post c l
  generalize hd : c.unregister l = d at hrem hpost ⊢
  have hfi : (regGet d.registry l.signal).findIdx?
      (fun x => decide (x.id = l.id)) = none :=
    List.findIdx?_eq_none_iff.mpr (fun x hx => by simpa using hrem x hx)
  show Capitan.unregister d l = d
  simp only [Capitan.unregister]
  split_ifs with h1 h2 h2 <;> (try split)
  · rw [hfi] at h1
    simp at h1
  · rw [hfi] at h1
    simp at h1
  · rw [hfi] at h1
    simp at h1
  · rename_i w heq
    rcases hpost with ⟨hfr, hfw⟩ | hne
    · rw [hfw] at heq
      cases heq
    · exact absurd (List.length_eq_zero.mp h2) hne
  · rcases hpost with ⟨hfr, hfw⟩ | hne
    · rw [SMap.erase_of_find_none hfr]
    · exact absurd (List.length_eq_zero.mp h2) hne
  · rfl

theorem closeListener_idem (c : Capitan) (lid : Nat) (hids : entryIdsNodup c) :
    (c.closeListener lid).closeListener lid = c.closeListener lid := by
  unfold Capitan.closeListener
  cases hf : c.created.find? (fun l => decide (l.id = lid)) with
  | none => rw [hf]
  | some l =>
    rw [unregister_created c l, hf]
    exact unregister_idem c l hids

theorem foldUnregister_obsHeap (ls : List Listener) :
    ∀ c : Capitan,
      (ls.foldl (fun c l => Capitan.unregister c l) c).obsHeap = c.obsHeap := by
  induction ls with
  | nil => intro c; rfl
  | cons l rest ih =>
    intro c
    simp only [List.foldl_cons]
    rw [ih, unregister_obsHeap]

theorem foldUnregister_observers (ls : List Listener) :
    ∀ c : Capitan,
      (ls.foldl (fun c l => Capitan.unregister c l) c).observers = c.observers := by
  induction ls with
  | nil => intro c; rfl
  | cons l rest ih =>
    intro c
    simp only [List.foldl_cons]
    rw [ih, unregister_observers]

theorem foldUnregister_subset (ls : List Listener) :
    ∀ (c : Capitan) (s : Signal) (x : Listener),
      x ∈ regGet (ls.foldl (fun c l => Capitan.unregister c l) c).registry s →
      x ∈ regGet c.registry s := by
  induction ls with
  | nil => exact fun c s x hx => hx
  | cons l rest ih =>
    intro c s x hx
    simp only [List.foldl_cons] at hx
    exact unregister_subset c l s x (ih (c.unregister l) s x hx)

theorem foldUnregister_nodupIds (ls : List Listener) :
    ∀ c : Capitan, entryIdsNodup c →
      entryIdsNodup (ls.foldl (fun c l => Capitan.unregister c l) c) := by
  induction ls with
  | nil => exact fun c h => h
  | cons l rest ih =>
    intro c h
    simp only [List.foldl_cons]
    exact ih _ (unregister_nodupIds c l h)

/-- After unregistering every listener of `ls`, none of them is left in its
registry entry. -/
theorem foldUnregister_removes (ls : List Listener) :
    ∀ c : Capitan, entryIdsNodup c →
      ∀ l ∈ ls,
        ∀ x ∈ regGet (ls.foldl (fun c l => Capitan.unregister c l) c).registry l.signal,
          x.id ≠ l.id := by
  induction ls with
  | nil =>
    intro c h l hl
    simp at hl
  | cons l0 rest ih =>
    intro c h l hl x hx
    simp only [List.foldl_cons] at hx
    rcases List.mem_cons.mp hl with rfl | hl2
    · exact unregister_removes c l h x
        (foldUnregister_subset rest (c.unregister l) l.signal x hx)
    · exact ih (c.unregister l0) (unregister_nodupIds c l0 h) l hl2 x hx

/-- The first `Observer.Close` of an active observer, written out: mark the
heap entry inactive and empty, swap-remove the id from the bus's observer
slice, then unregister every taken listener. -/
theorem closeObserver_effects (c : Capitan) (oid : Nat) (obs : Observer)
    (hfo : obsFind c.obsHeap oid = some obs) (hact : obs.active = true) :
    c.closeObserver oid
      = obs.listeners.foldl (fun c l => Capitan.unregister c l)
          { c with
              obsHeap := obsUpdate c.obsHeap { obs with active := false, listeners := [] },
              observers := swapRemoveP c.observers (fun x => decide (x = oid)) } := by
  unfold Capitan.closeObserver
  rw [hfo]
  dsimp only
  rw [if_pos hact]

theorem closeObserver_obsFind (c : Capitan) (oid : Nat) (obs : Observer)
    (hfo : obsFind c.obsHeap oid = some obs) (hact : obs.active = true) :
    obsFind (c.closeObserver oid).obsHeap oid
      = some { obs with active := false, listeners := [] } := by
  rw [closeObserver_effects c oid obs hfo hact, foldUnregister_obsHeap]
  exact obsUpdate_find_eq { obs with active := false, listeners := [] } hfo
    (@obsFind_id c.obsHeap oid obs hfo)

theorem closeObserver_idem (c : Capitan) (oid : Nat) :
    (c.closeObserver oid).closeObserver oid = c.closeObserver oid := by
  cases hfo : obsFind c.obsHeap oid with
  | none =>
    have h1 : c.closeObserver oid = c := by
      unfold Capitan.closeObserver
      rw [hfo]
    rw [h1, h1]
  | some obs =>
    by_cases hact : obs.active = true
    · have hf2 := closeObserver_obsFind c oid obs hfo hact
      generalize hd : c.closeObserver oid = d at hf2 ⊢
      show Capitan.closeObserver d oid = d
      unfold Capitan.closeObserver
      rw [hf2]
      dsimp only
      rw [if_neg (by simp)]
    · have h1 : c.closeObserver oid = c := by
        unfold Capitan.closeObserver
        rw [hfo]
        dsimp only
        rw [if_neg hact]
      rw [h1, h1]

theorem closeObserver_detached (c : Capitan) (oid : Nat) (obs : Observer)
    (hfo : obsFind c.obsHeap oid = some obs) (hact : obs.active = true)
    (hnd : c.observers.Nodup) :
    oid ∉ (c.closeObserver oid).observers := by
  rw [closeObserver_effects c oid obs hfo hact, foldUnregister_observers]
  intro hmem
  have hndm : (c.observers.map (fun x => x)).Nodup := by
    simpa using hnd
  exact swapRemoveP_removes (fun x => x) oid c.observers hndm oid hmem rfl

theorem closeObserver_removes (c : Capitan) (oid : Nat) (obs : Observer)
    (hfo : obsFind c.obsHeap oid = some obs) (hact : obs.active = true)
    (hids : entryIdsNodup c) :
    ∀ l ∈ obs.listeners,
      ∀ x ∈ regGet (c.closeObserver oid).registry l.signal, x.id ≠ l.id := by
  rw [closeObserver_effects c oid obs hfo hact]
  exact foldUnregister_removes obs.listeners _ hids

/-- C7: `Listener.Close` and `Observer.Close` are idempotent.  The first
`Observer.Close` of an active observer marks its heap entry inactive,
detaches its id from the bus's observer slice, and unregisters every
listener it owns, so no registry entry still carries an owned listener; a
repeated `Close` of the same listener handle or the same observer is a
no-op on the whole bus state (registry, worker table and observer list
included), and any number `n + 1` of `Close` calls leaves exactly the
state of the first. -/
theorem close_idempotent (c : Capitan) (lid oid : Nat) (obs : Observer)
    (hids : entryIdsNodup c)
    (hnd : c.observers.Nodup)
    (hfo : obsFind c.obsHeap oid = some obs)
    (hact : obs.active = true) :
    ((c.closeListener lid).closeListener lid = c.closeListener lid)
    ∧ ((c.closeObserver oid).closeObserver oid = c.closeObserver oid)
    ∧ (∀ n : Nat,
        (fun s : Capitan => s.closeListener lid)^[n + 1] c = c.closeListener lid)
    ∧ (∀ n : Nat,
        (fun s : Capitan => s.closeObserver oid)^[n + 1] c = c.closeObserver oid)
    ∧ obsFind (c.closeObserver oid).obsHeap oid
        = some { obs with active := false, listeners := [] }
    ∧ oid ∉ (c.closeObserver oid).observers
    ∧ (∀ l ∈ obs.listeners,
        ∀ x ∈ regGet (c.closeObserver oid).registry l.signal, x.id ≠ l.id) := by
  have hL := closeListener_idem c lid hids
  have hO := closeObserver_idem c oid
  refine ⟨hL, hO, ?_, ?_, closeObserver_obsFind c oid obs hfo hact,
    closeObserver_detached c oid obs hfo hact hnd,
    closeObserver_removes c oid obs hfo hact hids⟩
  · intro n
    induction n with
    | zero => rfl
    | succ k ih =>
      rw [Function.iterate_succ_apply'
        (fun s : Capitan => s.closeListener lid) (k + 1) c, ih]
      exact hL
  · intro n
    induction n with
    | zero => rfl
    | succ k ih =>
      rw [Function.iterate_succ_apply'
        (fun s : Capitan => s.closeObserver oid) (k + 1) c, ih]
      exact hO

/-- A concrete bus for exercising `Close`: one hooked listener (id 0) on
`"s"` and one observer (id 1) that owns the attached listener id 2. -/
def bus7 : Capitan := (((Capitan.new 4 false).hook "s" 1).1.observe 9 ["s"]).1

/-- The heap entry `Observe 9 ["s"]` creates on `bus7`. -/
def obs7 : Observer :=
  { id := 1, listeners := [{ id := 2, signal := "s", cb := 9, owner := some 1 }],
    cb := 9, active := true, signals := some ["s"] }

theorem close_idempotent_witness :
    entryIdsNodup bus7
    ∧ obsFind bus7.obsHeap 1 = some obs7
    ∧ (((bus7.closeListener 0).closeListener 0 = bus7.closeListener 0)
      ∧ ((bus7.closeObserver 1).closeObserver 1 = bus7.closeObserver 1)
      ∧ (∀ n : Nat,
          (fun s : Capitan => s.closeListener 0)^[n + 1] bus7 = bus7.closeListener 0)
      ∧ (∀ n : Nat,
          (fun s : Capitan => s.closeObserver 1)^[n + 1] bus7 = bus7.closeObserver 1)
      ∧ obsFind (bus7.closeObserver 1).obsHeap 1
          = some { obs7 with active := false, listeners := [] }
      ∧ 1 ∉ (bus7.closeObserver 1).observers
      ∧ (∀ l ∈ obs7.listeners,
          ∀ x ∈ regGet (bus7.closeObserver 1).registry l.signal, x.id ≠ l.id)) := by
  refine ⟨by decide, by decide, ?_⟩
  exact close_idempotent bus7 0 1 obs7 (by decide) (by decide) (by decide) (by decide)
